import Mathlib

/-!
Verification development for the Backyard_Birds event pipeline.

The definitions below are shallow embeddings of the Python sources:
  scripts/node/dispatcher.py, scripts/server/node/dispatcher.py,
  scripts/node/birdnet_manager.py, scripts/node/birdnet_lite_manager.py,
  scripts/node/birdnet_metadata.py, scripts/server/udp_listener.py,
  scripts/server/database.py, scripts/server/create_database.py.

Python dictionaries holding event data are modelled as structures whose
fields are `Option`-valued (a `none` field is an absent key or a `None`
value); Python floats are modelled as rationals; SQLite tables are lists
of typed rows.  Python truthiness (`x or y`) is modelled explicitly:
`None`, the empty string and numeric zero are falsy.
-/

namespace BackyardBirds

/-- Python `a or b` on optional strings: `None` and `""` are falsy. -/
def pyOrStr (a b : Option String) : Option String :=
  match a with
  | some s => if s = "" then b else some s
  | none => b

/-- Python `a or b` on optional numbers: `None` and `0.0` are falsy. -/
def pyOrQ (a b : Option ℚ) : Option ℚ :=
  match a with
  | some q => if q = 0 then b else some q
  | none => b

/-- Python truthiness test for an optional string (`not x`). -/
def strFalsy (a : Option String) : Bool :=
  match a with
  | some s => s = ""
  | none => true

/-- Python `a < b` on strings: lexicographic on code points. -/
def strLt (a b : String) : Prop := a.data < b.data

instance (a b : String) : Decidable (strLt a b) := by
  unfold strLt; infer_instance

/-- Whitespace characters stripped by Python `int(str)`. -/
def isPySpace (c : Char) : Bool :=
  c = ' ' || c = '\t' || c = '\n' || c = '\r' || c = '\x0b' || c = '\x0c'

/-- Numeric value of a list of decimal digit characters. -/
def digitsToNat (ds : List Char) : Nat :=
  ds.foldl (fun a c => a * 10 + (c.toNat - '0'.toNat)) 0

/-- Python `int(s)` on a string: strip whitespace, optional sign, decimal
digits; returns `none` where Python raises `ValueError`.  (PEP 515 digit
group separators are not modelled; no timestamp in this system uses them.) -/
def pyInt (s : String) : Option Int :=
  let l := ((s.data.dropWhile isPySpace).reverse.dropWhile isPySpace).reverse
  match l with
  | [] => none
  | c :: rest =>
    let signed : Bool × List Char :=
      if c = '-' then (true, rest)
      else if c = '+' then (false, rest)
      else (false, c :: rest)
    match signed with
    | (neg, ds) =>
      if ds.isEmpty then none
      else if ds.all Char.isDigit then
        some ((if neg then -1 else 1) * (digitsToNat ds : Int))
      else none

/-! ## Event data model

One structure per JSON sub-record, with every field optional, mirroring
the dictionaries the Python code reads with `.get`. -/

/-- The `bird` sub-record.  The v2 pipeline (`birdnet_manager.py`) writes
`species_code`/`common_name`/`confidence`/`start_time`/`end_time`; the v1
pipeline (`birdnet_lite_manager.py`) writes `bird_id`/`species_name`/
`confidence` instead. -/
structure Bird where
  species_code : Option String := none
  common_name : Option String := none
  scientific_name : Option String := none
  confidence : Option ℚ := none
  start_time : Option ℚ := none
  end_time : Option ℚ := none
  bird_id : Option String := none
  species_name : Option String := none
deriving DecidableEq, Repr

/-- The `audio` sub-record written by `birdnet_manager._build_event_from_detection`. -/
structure AudioBlock where
  file : Option String := none
deriving DecidableEq, Repr

/-- The `model` sub-record (v2 analyzer block or v1 watchdog block). -/
structure ModelBlock where
  source : Option String := none
  min_conf : Option ℚ := none
  lat : Option ℚ := none
  lon : Option ℚ := none
  week : Option Int := none
  model_file : Option String := none
  model_dir : Option String := none
deriving DecidableEq, Repr

/-- An event dictionary, with every key that any of the embedded code reads. -/
structure Event where
  event_id : Option String := none
  node_id : Option String := none
  timestamp_utc : Option String := none
  detected_at_utc : Option String := none
  local_time : Option String := none
  event_type : Option String := none
  lat : Option ℚ := none
  latitude : Option ℚ := none
  lon : Option ℚ := none
  longitude : Option ℚ := none
  bird : Option Bird := none
  audio : Option AudioBlock := none
  model : Option ModelBlock := none
deriving DecidableEq, Repr

/-! ## Store (scripts/server/database.py, scripts/server/create_database.py)

`working.db` and `yearly.db` are modelled as lists of typed rows.  The
`detections` schema declares `detected_at_utc`, `species_code`,
`common_name` and `confidence` `NOT NULL`; binding `None` to any of them
makes the `INSERT` raise, which the model returns as an error. -/

/-- One row of the `detections` table in `working.db`. -/
structure DetectionRow where
  detected_at_utc : Option String
  species_code : Option String
  common_name : Option String
  scientific_name : Option String
  confidence : Option ℚ
  latitude : Option ℚ
  longitude : Option ℚ
  node_id : Option String
  audio_path : Option String
  is_rare : Int
  review_status : String
  notes : Option String
deriving DecidableEq, Repr

/-- One row of the `yearly_summary` table in `yearly.db`. -/
structure YearlyRow where
  id : Nat
  year : Int
  species_code : String
  common_name : String
  total_detections : Int
  first_seen_utc : Option String
  last_seen_utc : Option String
  max_confidence : Option ℚ
deriving DecidableEq, Repr

/-- The `yearly.db` state: its rows plus the next AUTOINCREMENT id. -/
structure YearlyDB where
  rows : List YearlyRow
  nextId : Nat
deriving DecidableEq, Repr

def emptyYearly : YearlyDB := ⟨[], 0⟩

/-- Combined durable state of the two SQLite databases. -/
structure DBState where
  working : List DetectionRow
  yearly : YearlyDB
deriving DecidableEq, Repr

def emptyDB : DBState := ⟨[], emptyYearly⟩

/-- database._parse_year_from_timestamp: `None` on a falsy or short string,
else Python `int` of the first four characters. -/
def parse_year_from_timestamp (ts : Option String) : Option Int :=
  match ts with
  | none => none
  | some s =>
    if s = "" then none
    else if s.length < 4 then none
    else pyInt (String.mk (s.data.take 4))

/-- The `detection_row` dictionary built inside database.insert_event,
including the Python `or`-chains with their truthiness semantics. -/
def buildDetectionRow (e : Event) : DetectionRow :=
  let bird := e.bird.getD {}
  let audio := e.audio.getD {}
  let model := e.model.getD {}
  { detected_at_utc := pyOrStr e.timestamp_utc e.detected_at_utc
    species_code := bird.species_code
    common_name := bird.common_name
    scientific_name := bird.scientific_name
    confidence := bird.confidence
    latitude := pyOrQ e.lat (pyOrQ e.latitude model.lat)
    longitude := pyOrQ e.lon (pyOrQ e.longitude model.lon)
    node_id := e.node_id
    audio_path := audio.file
    is_rare := 0
    review_status := "unreviewed"
    notes := none }

/-- SQLite errors surfaced by the model. -/
inductive SqlError where
  | notNullViolation
deriving DecidableEq, Repr

/-- NOT NULL columns of `detections` (create_database.WORKING_SCHEMA). -/
def detectionsNotNullOk (r : DetectionRow) : Bool :=
  r.detected_at_utc.isSome && r.species_code.isSome &&
    r.common_name.isSome && r.confidence.isSome

/-- SELECT of the existing `yearly_summary` row for `(year, species_code)`. -/
def findYearly (year : Int) (sp : String) (rows : List YearlyRow) : Option YearlyRow :=
  rows.find? (fun r => r.year == year && r.species_code == sp)

/-- UPDATE ... WHERE id = ? on the yearly rows. -/
def replaceById (i : Nat) (newRow : YearlyRow) (rows : List YearlyRow) : List YearlyRow :=
  rows.map (fun r => if r.id = i then newRow else r)

/-- database._update_yearly_summary: skip when the year cannot be parsed or
species/common name are falsy; otherwise insert a fresh `(year, species)`
row or update the running extrema of the existing one. -/
def update_yearly_summary (row : DetectionRow) (ydb : YearlyDB) : YearlyDB :=
  let ts := row.detected_at_utc
  let conf := row.confidence
  match parse_year_from_timestamp ts, row.species_code, row.common_name with
  | some year, some sp, some nm =>
    if sp = "" || nm = "" then ydb
    else
      match findYearly year sp ydb.rows with
      | none =>
        { rows := ydb.rows ++
            [{ id := ydb.nextId, year := year, species_code := sp, common_name := nm
               total_detections := 1, first_seen_utc := ts, last_seen_utc := ts
               max_confidence := some (conf.getD 0) }]
          nextId := ydb.nextId + 1 }
      | some ex =>
        let total := (if ex.total_detections = 0 then 0 else ex.total_detections) + 1
        let first0 := pyOrStr ex.first_seen_utc ts
        let last0 := pyOrStr ex.last_seen_utc ts
        let first :=
          match ts with
          | none => first0
          | some t =>
            match first0 with
            | none => some t
            | some f => if strLt t f then some t else some f
        let last :=
          match ts with
          | none => last0
          | some t =>
            match last0 with
            | none => some t
            | some f => if strLt f t then some t else some f
        let oldMax := (pyOrQ ex.max_confidence (some 0)).getD 0
        let newMax :=
          match conf with
          | some c => if oldMax < c then c else oldMax
          | none => oldMax
        { ydb with
            rows := replaceById ex.id
              { ex with
                  total_detections := total, first_seen_utc := first
                  last_seen_utc := last, max_confidence := some newMax } ydb.rows }
  | _, _, _ => ydb

/-- database.insert_event as its sequence of durably committed states: the
`INSERT` into `working.db` is committed first (database.py line 315), then
`_update_yearly_summary` commits on the separate `yearly.db` connection
(line 209).  A NOT NULL violation raises before anything commits. -/
def insertEventCommits (e : Event) (db : DBState) : Except SqlError (List DBState) :=
  let row := buildDetectionRow e
  if detectionsNotNullOk row then
    let db1 : DBState := { db with working := db.working ++ [row] }
    let db2 : DBState := { db1 with yearly := update_yearly_summary row db1.yearly }
    .ok [db1, db2]
  else .error .notNullViolation

/-- database.insert_event: final state after both commits, or the SQLite error. -/
def insert_event (e : Event) (db : DBState) : Except SqlError DBState :=
  let row := buildDetectionRow e
  if detectionsNotNullOk row then
    .ok { working := db.working ++ [row]
          yearly := update_yearly_summary row db.yearly }
  else .error .notNullViolation

/-- Sequential inserts, stopping at the first SQLite error. -/
def insertAll : List Event → DBState → Except SqlError DBState
  | [], db => .ok db
  | e :: es, db =>
    match insert_event e db with
    | .ok db1 => insertAll es db1
    | .error er => .error er

/-! ## Node metadata (scripts/node/birdnet_metadata.py)

The wall clock is modelled as an explicit UTC timestamp with microsecond
resolution, the argument `datetime.now(timezone.utc)` supplies in Python;
the `uuid.uuid4().hex[:8]` suffix is an explicit parameter. -/

/-- A UTC instant at microsecond resolution. -/
structure UTCTime where
  year : Nat
  month : Nat
  day : Nat
  hour : Nat
  minute : Nat
  second : Nat
  micro : Nat
deriving DecidableEq, Repr

/-- Field bounds of a `datetime` value, restricted to four-digit years
(`strftime("%Y")` pads to four digits only in that range). -/
def UTCTime.Valid (t : UTCTime) : Prop :=
  1000 ≤ t.year ∧ t.year ≤ 9999 ∧ 1 ≤ t.month ∧ t.month ≤ 12 ∧
    1 ≤ t.day ∧ t.day ≤ 31 ∧ t.hour ≤ 23 ∧ t.minute ≤ 59 ∧
    t.second ≤ 59 ∧ t.micro ≤ 999999

instance (t : UTCTime) : Decidable t.Valid := by
  unfold UTCTime.Valid; infer_instance

/-- Chronological order on instants: lexicographic on the fields. -/
def UTCTime.Before (a b : UTCTime) : Prop :=
  a.year < b.year ∨ (a.year = b.year ∧ (a.month < b.month ∨ (a.month = b.month ∧
    (a.day < b.day ∨ (a.day = b.day ∧ (a.hour < b.hour ∨ (a.hour = b.hour ∧
      (a.minute < b.minute ∨ (a.minute = b.minute ∧ (a.second < b.second ∨
        (a.second = b.second ∧ a.micro < b.micro)))))))))))

instance (a b : UTCTime) : Decidable (a.Before b) := by
  unfold UTCTime.Before; infer_instance

/-- Decimal digit character. -/
def digitChar (d : Nat) : Char := Char.ofNat ('0'.toNat + d)

/-- Zero-padded fixed-width decimal rendering, as `strftime` produces for
`%m`, `%d`, `%H`, `%M`, `%S`, `%f` (and `%Y` on four-digit years). -/
def pad : Nat → Nat → List Char
  | 0, _ => []
  | w + 1, n => pad w (n / 10) ++ [digitChar (n % 10)]

/-- The `ts.strftime("%Y%m%dT%H%M%S.%fZ")` part of an event id. -/
def tsPart (t : UTCTime) : List Char :=
  pad 4 t.year ++ (pad 2 t.month ++ (pad 2 t.day ++ ('T' ::
    (pad 2 t.hour ++ (pad 2 t.minute ++ (pad 2 t.second ++ ('.' ::
      (pad 6 t.micro ++ ['Z']))))))))

/-- birdnet_metadata._make_event_id: timestamp part, underscore, random
hex suffix. -/
def make_event_id (t : UTCTime) (rand : List Char) : List Char :=
  tsPart t ++ ('_' :: rand)

/-- ISO-8601 rendering with millisecond precision and UTC offset, as
`ts_utc.isoformat(timespec="milliseconds")` produces. -/
def isoMillisUtc (t : UTCTime) : String :=
  String.mk (pad 4 t.year ++ ('-' :: (pad 2 t.month ++ ('-' :: (pad 2 t.day ++ ('T' ::
    (pad 2 t.hour ++ (':' :: (pad 2 t.minute ++ (':' :: (pad 2 t.second ++ ('.' ::
      (pad 3 (t.micro / 1000) ++ "+00:00".data)))))))))))))

def NODE_ID : String := "yard_station_1"

/-- birdnet_metadata.EventShell: a frozen dataclass, so every field is
fixed at construction and never reassigned. -/
structure EventShell where
  event_id : String
  node_id : String
  timestamp_utc : String
  local_time : String
  weather : Option Unit := none
deriving DecidableEq, Repr

/-- birdnet_metadata.new_event_shell: stamps the creation instant, builds
the event id from it, applies the node-id default, and leaves `weather`
as `None`.  `localIso` stands for the `America/Denver` rendering of the
same instant, which the code derives from the wall clock. -/
def new_event_shell (nodeIdArg : Option String) (t : UTCTime) (localIso : String)
    (rand : List Char) : EventShell :=
  { event_id := String.mk (make_event_id t rand)
    node_id := (pyOrStr nodeIdArg (some NODE_ID)).getD NODE_ID
    timestamp_utc := isoMillisUtc t
    local_time := localIso
    weather := none }

/-! ## Node event builders and dispatchers -/

/-- birdnet_lite_manager.BirdDetection (v1 pipeline). -/
structure BirdDetection where
  bird_id : String
  species_name : String
  confidence : ℚ
deriving DecidableEq, Repr

/-- A v2 detection dictionary as returned by birdnet_analyzer.analyze_wav. -/
structure Detection where
  species_code : String
  common_name : String
  confidence : ℚ
  start_time : ℚ
  end_time : ℚ
deriving DecidableEq, Repr

/-- birdnet_lite_manager.build_event_from_detection: event shell plus the
detection under `bird` — with the v1 keys `bird_id` and `species_name` —
plus watchdog model info (or `None` when unavailable). -/
def build_event_from_detection (shell : EventShell) (modelInfo : Option ModelBlock)
    (d : BirdDetection) : Event :=
  { event_id := some shell.event_id
    node_id := some shell.node_id
    timestamp_utc := some shell.timestamp_utc
    local_time := some shell.local_time
    bird := some { bird_id := some d.bird_id, species_name := some d.species_name
                   confidence := some d.confidence }
    model := modelInfo }

/-- birdnet_manager._build_event_from_detection (v2): shell plus `bird`,
`audio` and `model` blocks with the server-side keys. -/
def build_event_v2 (shell : EventShell) (modelBlock : ModelBlock)
    (audioPath : String) (d : Detection) : Event :=
  { event_id := some shell.event_id
    node_id := some shell.node_id
    timestamp_utc := some shell.timestamp_utc
    local_time := some shell.local_time
    event_type := some "birdnet_detection"
    bird := some { species_code := some d.species_code, common_name := some d.common_name
                   confidence := some d.confidence, start_time := some d.start_time
                   end_time := some d.end_time }
    audio := some { file := some audioPath }
    model := some modelBlock }

/-- Observable actions of a dispatcher call, in order. -/
inductive DispatchAction where
  | logReceived
  | sendAttempt
  | logDispatched
  | logSendException
  | enqueueOutbox
deriving DecidableEq, Repr

/-- Terminal state of one event inside a dispatcher call. -/
inductive DispatchOutcome where
  | delivered
  | sendFailureLogged
deriving DecidableEq, Repr

/-- scripts/server/node/dispatcher.handle_event: log receipt, try
`send_event`, log success, or catch the exception and log it.  `send` is
the `send_over_wifi.send_event` transport call, which either returns or
raises. -/
def handle_event (send : Event → Except Unit Unit) (e : Event) :
    List DispatchAction × DispatchOutcome :=
  match send e with
  | .ok _ => ([.logReceived, .sendAttempt, .logDispatched], .delivered)
  | .error _ => ([.logReceived, .sendAttempt, .logSendException], .sendFailureLogged)

/-- scripts/node/dispatcher.dispatch_detection: build the event from the
detection, try `send_event` inside `try/except`, log the outcome, and
return the event dictionary in every case. -/
def dispatch_detection (shell : EventShell) (modelInfo : Option ModelBlock)
    (send : Event → Except Unit Unit) (bird_id species_name : String)
    (confidence : ℚ) : Event × List DispatchAction × DispatchOutcome :=
  let event := build_event_from_detection shell modelInfo
    { bird_id := bird_id, species_name := species_name, confidence := confidence }
  match send event with
  | .ok _ => (event, [.sendAttempt, .logDispatched], .delivered)
  | .error _ => (event, [.sendAttempt, .logSendException], .sendFailureLogged)

def MIN_EMIT_CONFIDENCE : ℚ := 0.25

def MAX_EVENTS_PER_CHUNK : Nat := 1

/-- The emit loop of birdnet_manager.process_chunk: for each selected
detection, build the event with a fresh shell, invoke the callback inside
`try/except` (an exception is logged, recorded here as `false`), and
append the event to the emitted list regardless. -/
def emitLoop (shellGen : Nat → EventShell) (modelBlock : ModelBlock)
    (audioPath : String) (cb : Event → Except Unit Unit) :
    List Detection → Nat → List Event × List Bool
  | [], _ => ([], [])
  | d :: ds, i =>
    let ev := build_event_v2 (shellGen i) modelBlock audioPath d
    let r := match cb ev with | .ok _ => true | .error _ => false
    let rest := emitLoop shellGen modelBlock audioPath cb ds (i + 1)
    (ev :: rest.1, r :: rest.2)

/-- birdnet_manager.process_chunk: filter the analyzer detections by the
confidence threshold, keep the first `MAX_EVENTS_PER_CHUNK`, and run the
emit loop.  Returns the emitted events and the callback outcomes. -/
def process_chunk (shellGen : Nat → EventShell) (modelBlock : ModelBlock)
    (audioPath : String) (detections : List Detection)
    (cb : Event → Except Unit Unit) : List Event × List Bool :=
  let filtered := detections.filter (fun d => MIN_EMIT_CONFIDENCE ≤ d.confidence)
  let selected := filtered.take MAX_EVENTS_PER_CHUNK
  emitLoop shellGen modelBlock audioPath cb selected 0

/-! ## JSON values, wire serialization and parsing

`JVal` models the values `json.loads` produces (objects are association
lists in document order; numbers are a decimal integer part plus fraction
digits, exactly the forms the node serializer emits).  `printJ` models
the spec's wire serialization and `parseVal`/`jsonLoads` model
`json.loads` on the grammar the system uses. -/

mutual

inductive JVal where
  | null : JVal
  | bool (b : Bool) : JVal
  | num (i : Int) (frac : List Nat) : JVal
  | str (s : List Char) : JVal
  | arr (elems : JElems) : JVal
  | obj (members : JMembers) : JVal

inductive JElems where
  | nil : JElems
  | cons (v : JVal) (rest : JElems) : JElems

inductive JMembers where
  | nil : JMembers
  | cons (key : List Char) (v : JVal) (rest : JMembers) : JMembers

end

/-- Build an element sequence from a list. -/
def toElems : List JVal → JElems
  | [] => .nil
  | v :: rest => .cons v (toElems rest)

/-- Build an object member sequence from an association list. -/
def toMembers : List (List Char × JVal) → JMembers
  | [] => .nil
  | (k, v) :: rest => .cons k v (toMembers rest)

/-- Decimal digits of `n`, most significant first, with explicit fuel so
that the kernel can evaluate it (`n + 1` steps always suffice). -/
def natDigitsAux : Nat → Nat → List Nat
  | 0, _ => []
  | fuel + 1, n => if n < 10 then [n] else natDigitsAux fuel (n / 10) ++ [n % 10]

def natDigits (n : Nat) : List Nat := natDigitsAux (n + 1) n

def printNat (n : Nat) : List Char := (natDigits n).map digitChar

def printInt : Int → List Char
  | .ofNat n => printNat n
  | .negSucc n => '-' :: printNat (n + 1)

/-- String-body serialization: quote and backslash are escaped, everything
else is emitted raw. -/
def escChar (c : Char) : List Char :=
  if c = '"' || c = '\\' then ['\\', c] else [c]

def printStrBody (s : List Char) : List Char := (s.map escChar).flatten

def printStr (s : List Char) : List Char := '"' :: printStrBody s ++ ['"']

/-- Fractional part of a serialized number: empty for no fraction,
otherwise a dot followed by the digits. -/
def fracPart (f : List Nat) : List Char :=
  match f with
  | [] => []
  | _ :: _ => '.' :: f.map digitChar

mutual

/-- Modelled from the spec: the node's wire serialization is compact JSON
(`json.dumps` of the event dict); the sender module itself is not in the
repository snapshot. -/
def printJ : JVal → List Char
  | .null => ['n', 'u', 'l', 'l']
  | .bool false => ['f', 'a', 'l', 's', 'e']
  | .bool true => ['t', 'r', 'u', 'e']
  | .num i f => printInt i ++ (match f with | [] => [] | _ :: _ => '.' :: f.map digitChar)
  | .str s => printStr s
  | .arr es => '[' :: printElems es ++ [']']
  | .obj ms => '\x7b' :: printMembers ms ++ ['\x7d']

def printElems : JElems → List Char
  | .nil => []
  | .cons e .nil => printJ e
  | .cons e (.cons e2 rest) => printJ e ++ ',' :: printElems (.cons e2 rest)

def printMembers : JMembers → List Char
  | .nil => []
  | .cons k v .nil => printStr k ++ ':' :: printJ v
  | .cons k v (.cons k2 v2 rest) =>
    printStr k ++ ':' :: printJ v ++ ',' :: printMembers (.cons k2 v2 rest)

end

/-- JSON whitespace accepted between tokens by `json.loads`. -/
def isJsonWs (c : Char) : Bool :=
  c = ' ' || c = '\t' || c = '\n' || c = '\r'

def skipWs (l : List Char) : List Char := l.dropWhile isJsonWs

/-- Parse a string body after the opening quote; returns the decoded
content and the input after the closing quote.  Escapes cover the
single-character JSON escapes; raw control characters are rejected, as in
`json.loads`.  (`\uXXXX` escapes are not modelled; the node serializer
never emits them.) -/
def parseStrRest : List Char → Option (List Char × List Char)
  | [] => none
  | c :: cs =>
    if c = '"' then some ([], cs)
    else if c = '\\' then
      match cs with
      | [] => none
      | e :: cs2 =>
        let dec : Option Char :=
          if e = '"' then some '"'
          else if e = '\\' then some '\\'
          else if e = '/' then some '/'
          else if e = 'n' then some '\n'
          else if e = 't' then some '\t'
          else if e = 'r' then some '\r'
          else if e = 'b' then some '\x08'
          else if e = 'f' then some '\x0c'
          else none
        match dec with
        | some d => (parseStrRest cs2).map (fun p => (d :: p.1, p.2))
        | none => none
    else if c.toNat < 0x20 then none
    else (parseStrRest cs).map (fun p => (c :: p.1, p.2))

def takeDigits (l : List Char) : List Char × List Char :=
  (l.takeWhile Char.isDigit, l.dropWhile Char.isDigit)

/-- Parse a JSON number (sign, integer part without leading zeros,
optional fraction).  Exponent forms are not modelled; the serializer
never emits them. -/
def parseNum (l : List Char) : Option (JVal × List Char) :=
  let signed : Bool × List Char :=
    match l with
    | c :: rest => if c = '-' then (true, rest) else (false, c :: rest)
    | [] => (false, [])
  match takeDigits signed.2 with
  | ([], _) => none
  | (d :: ds, r1) =>
    if d = '0' && !ds.isEmpty then none
    else
      let iNat := digitsToNat (d :: ds)
      let i : Int := if signed.1 then -(iNat : Int) else (iNat : Int)
      if r1.head? = some '.' then
        match takeDigits r1.tail with
        | ([], _) => none
        | (f :: fs, r3) =>
          some (.num i ((f :: fs).map (fun c => c.toNat - '0'.toNat)), r3)
      else some (.num i [], r1)

mutual

/-- Fuel-bounded recursive-descent JSON value parser.  The head character
selects the production, as in `json.loads`. -/
def parseVal : Nat → List Char → Option (JVal × List Char)
  | 0, _ => none
  | fuel + 1, l =>
    match skipWs l with
    | [] => none
    | c :: r =>
      if c = 'n' then
        match r with
        | 'u' :: 'l' :: 'l' :: r2 => some (.null, r2)
        | _ => none
      else if c = 't' then
        match r with
        | 'r' :: 'u' :: 'e' :: r2 => some (.bool true, r2)
        | _ => none
      else if c = 'f' then
        match r with
        | 'a' :: 'l' :: 's' :: 'e' :: r2 => some (.bool false, r2)
        | _ => none
      else if c = '"' then
        (parseStrRest r).map (fun p => (.str p.1, p.2))
      else if c = '[' then
        (if (skipWs r).head? = some ']' then some (.arr .nil, (skipWs r).tail)
         else
           match parseElems fuel r with
           | some (es, rest) => some (.arr es, rest)
           | none => none)
      else if c = '\x7b' then
        (if (skipWs r).head? = some '\x7d' then some (.obj .nil, (skipWs r).tail)
         else
           match parseMembers fuel r with
           | some (ms, rest) => some (.obj ms, rest)
           | none => none)
      else parseNum (c :: r)

/-- Comma-separated array elements up to the closing bracket. -/
def parseElems : Nat → List Char → Option (JElems × List Char)
  | 0, _ => none
  | fuel + 1, l =>
    match parseVal fuel l with
    | none => none
    | some (v, r) =>
      match skipWs r with
      | ',' :: r2 => (parseElems fuel r2).map (fun p => (.cons v p.1, p.2))
      | ']' :: r2 => some (.cons v .nil, r2)
      | _ => none

/-- Comma-separated object members up to the closing brace. -/
def parseMembers : Nat → List Char → Option (JMembers × List Char)
  | 0, _ => none
  | fuel + 1, l =>
    match skipWs l with
    | '"' :: r =>
      (match parseStrRest r with
       | none => none
       | some (k, r1) =>
         match skipWs r1 with
         | ':' :: r2 =>
           (match parseVal fuel r2 with
            | none => none
            | some (v, r3) =>
              match skipWs r3 with
              | ',' :: r4 => (parseMembers fuel r4).map (fun p => (.cons k v p.1, p.2))
              | '\x7d' :: r4 => some (.cons k v .nil, r4)
              | _ => none)
         | _ => none)
    | _ => none

end

/-- json.loads on a decoded text: parse one value, then require only
trailing whitespace. -/
def jsonLoads (l : List Char) : Option JVal :=
  match parseVal (l.length + 1) l with
  | some (v, rest) => if (skipWs rest).isEmpty then some v else none
  | none => none

/-! ## UTF-8 wire encoding -/

/-- UTF-8 encoding of one scalar value. -/
def utf8EncodeChar (c : Char) : List Nat :=
  let n := c.toNat
  if n < 0x80 then [n]
  else if n < 0x800 then [0xC0 + n / 64, 0x80 + n % 64]
  else if n < 0x10000 then [0xE0 + n / 4096, 0x80 + n / 64 % 64, 0x80 + n % 64]
  else [0xF0 + n / 262144, 0x80 + n / 4096 % 64, 0x80 + n / 64 % 64, 0x80 + n % 64]

/-- Modelled from the spec: the node sends the JSON text UTF-8 encoded in
a single UDP datagram; the sender module itself is not in the repository
snapshot. -/
def utf8Encode (s : List Char) : List Nat := (s.map utf8EncodeChar).flatten

/-- Continuation byte test. -/
def contOk (b : Nat) : Bool := 0x80 ≤ b && b < 0xC0

/-- Strict UTF-8 decoding with explicit fuel (one unit per decoded
character; a byte count plus one always suffices). -/
def utf8DecodeAux : Nat → List Nat → Option (List Char)
  | 0, _ => none
  | _ + 1, [] => some []
  | fuel + 1, b0 :: rest =>
    if b0 < 0x80 then (utf8DecodeAux fuel rest).map (Char.ofNat b0 :: ·)
    else if b0 < 0xC2 then none
    else if b0 < 0xE0 then
      match rest with
      | b1 :: r =>
        if contOk b1 then
          (utf8DecodeAux fuel r).map (Char.ofNat ((b0 - 0xC0) * 64 + (b1 - 0x80)) :: ·)
        else none
      | _ => none
    else if b0 < 0xF0 then
      match rest with
      | b1 :: b2 :: r =>
        let lo1 := if b0 = 0xE0 then 0xA0 else 0x80
        let hi1 := if b0 = 0xED then 0xA0 else 0xC0
        if lo1 ≤ b1 && b1 < hi1 && contOk b2 then
          (utf8DecodeAux fuel r).map
            (Char.ofNat ((b0 - 0xE0) * 4096 + (b1 - 0x80) * 64 + (b2 - 0x80)) :: ·)
        else none
      | _ => none
    else if b0 < 0xF5 then
      match rest with
      | b1 :: b2 :: b3 :: r =>
        let lo1 := if b0 = 0xF0 then 0x90 else 0x80
        let hi1 := if b0 = 0xF4 then 0x90 else 0xC0
        if lo1 ≤ b1 && b1 < hi1 && contOk b2 && contOk b3 then
          (utf8DecodeAux fuel r).map
            (Char.ofNat ((b0 - 0xF0) * 262144 + (b1 - 0x80) * 4096 +
              (b2 - 0x80) * 64 + (b3 - 0x80)) :: ·)
        else none
      | _ => none
    else none

/-- Strict UTF-8 decoder (`bytes.decode("utf-8", errors="strict")`):
rejects truncated sequences, stray continuation bytes, overlong forms,
surrogates and out-of-range lead bytes. -/
def utf8Decode (data : List Nat) : Option (List Char) :=
  utf8DecodeAux (data.length + 1) data

/-! ## Listener (scripts/server/udp_listener.py) -/

/-- Reasons a datagram is logged and skipped. -/
inductive DropReason where
  | invalidUtf8
  | invalidJson
  | rootNotObject
deriving DecidableEq, Repr

/-- The `isinstance(obj, dict)` test: the members when the root is an object. -/
def jvalObj? : JVal → Option JMembers
  | .null => none
  | .bool _ => none
  | .num _ _ => none
  | .str _ => none
  | .arr _ => none
  | .obj ms => some ms

/-- Stage 3 of the decode pipeline: require an object root. -/
def decodeRoot (v : JVal) : Except DropReason JVal :=
  match jvalObj? v with
  | some ms => .ok (.obj ms)
  | none => .error .rootNotObject

/-- Stage 2 of the decode pipeline: parse the text as JSON. -/
def decodeText (text : List Char) : Except DropReason JVal :=
  match jsonLoads text with
  | none => .error .invalidJson
  | some v => decodeRoot v

/-- The per-datagram decode pipeline of udp_event_stream: strict UTF-8
decode, JSON parse, root-must-be-object check. -/
def decodeDatagram (data : List Nat) : Except DropReason JVal :=
  match utf8Decode data with
  | none => .error .invalidUtf8
  | some text => decodeText text

/-- udp_event_stream over a finite inbound sequence: every datagram is
processed; decodable ones are yielded with their sender, the rest are
logged and skipped. -/
def udp_event_stream {σ : Type} : List (List Nat × σ) → List (JVal × σ)
  | [] => []
  | (d, s) :: rest =>
    match decodeDatagram d with
    | .ok v => (v, s) :: udp_event_stream rest
    | .error _ => udp_event_stream rest

/-- run_with_callback: drive the stream and invoke the callback on each
yielded event inside `try/except`; a raising callback is logged (recorded
as `false`) and the loop keeps listening. -/
def run_with_callback {σ ε : Type} (cb : JVal × σ → Except ε Unit) :
    List (List Nat × σ) → List ((JVal × σ) × Bool)
  | [] => []
  | (d, s) :: rest =>
    match decodeDatagram d with
    | .ok v =>
      (match cb (v, s) with
       | .ok _ => ((v, s), true)
       | .error _ => ((v, s), false)) :: run_with_callback cb rest
    | .error _ => run_with_callback cb rest

/-! ## Rollup bookkeeping helpers used in statements -/

/-- The timestamp string insert_event projects into the detections row. -/
def rowTimestamp (e : Event) : Option String := pyOrStr e.timestamp_utc e.detected_at_utc

/-- Confidence of an event, defaulted for extraction in statements. -/
def eventConf (e : Event) : ℚ := ((e.bird.getD {}).confidence).getD 0

/-- Timestamp of an event, defaulted for extraction in statements. -/
def eventTs (e : Event) : String := (rowTimestamp e).getD ""

/-- Common name of an event, defaulted for extraction in statements. -/
def eventName (e : Event) : String := ((e.bird.getD {}).common_name).getD ""

/-- Wellformedness of an event for the `(y, sp)` rollup: the bird block
carries the species for `sp`, a nonempty common name and a confidence,
and the projected timestamp yields the year `y`. -/
def rollupOkB (y : Int) (sp : String) (e : Event) : Bool :=
  match e.bird with
  | none => false
  | some b =>
    b.species_code == some sp && !(sp == "") &&
      (match b.common_name with
       | some nm => !(nm == "")
       | none => false) &&
      b.confidence.isSome &&
      (match rowTimestamp e with
       | some t => parse_year_from_timestamp (some t) == some y
       | none => false)

/-- Running maximum of rationals, seeded with the first element. -/
def runMaxQ (c : ℚ) (cs : List ℚ) : ℚ := cs.foldl (fun a b => if a < b then b else a) c

/-- Running lexicographic minimum of strings, seeded with the first element. -/
def runMinStr (t : String) (ts : List String) : String :=
  ts.foldl (fun a b => if strLt b a then b else a) t

/-- Running lexicographic maximum of strings, seeded with the first element. -/
def runMaxStr (t : String) (ts : List String) : String :=
  ts.foldl (fun a b => if strLt a b then b else a) t

/-- Association lookup in a JSON object, first binding wins. -/
def lookupMember (k : List Char) : JMembers → Option JVal
  | .nil => none
  | .cons k1 v rest => if k1 = k then some v else lookupMember k rest

/-- Printable-ASCII character, excluding nothing else: the alphabet over
which the modelled serializer emits strings byte-for-byte. -/
def asciiSafe (c : Char) : Bool := 0x20 ≤ c.toNat && c.toNat < 0x7F

mutual

/-- Canonical wire values: fraction digits are decimal digits and strings
are printable ASCII — the forms the node serializer produces. -/
def canonB : JVal → Bool
  | .null => true
  | .bool _ => true
  | .num _ f => f.all (fun d => d < 10)
  | .str s => s.all asciiSafe
  | .arr es => canonElems es
  | .obj ms => canonMembers ms

def canonElems : JElems → Bool
  | .nil => true
  | .cons v rest => canonB v && canonElems rest

def canonMembers : JMembers → Bool
  | .nil => true
  | .cons k v rest => k.all asciiSafe && canonB v && canonMembers rest

end

mutual

/-- Fuel sufficient for `parseVal` to read a printed value back. -/
def jneed : JVal → Nat
  | .null => 1
  | .bool _ => 1
  | .num _ _ => 1
  | .str _ => 1
  | .arr es => 1 + jneedElems es
  | .obj ms => 1 + jneedMembers ms

def jneedElems : JElems → Nat
  | .nil => 1
  | .cons v .nil => 1 + jneed v
  | .cons v (.cons v2 rest) => 1 + jneed v + jneedElems (.cons v2 rest)

def jneedMembers : JMembers → Nat
  | .nil => 1
  | .cons _ v .nil => 1 + jneed v
  | .cons _ v (.cons k2 v2 rest) => 1 + jneed v + jneedMembers (.cons k2 v2 rest)

end

/-- A continuation the number grammar cannot absorb: its first character
is neither a digit nor a decimal point. -/
def delimOk (l : List Char) : Prop :=
  ∀ c, l.head? = some c → c.isDigit = false ∧ c ≠ '.'

/-- Python's character comparison: code points. -/
def charLt (a b : Char) : Prop := a.toNat < b.toNat

instance (a b : Char) : Decidable (charLt a b) := by
  unfold charLt; infer_instance

/-- Python's string comparison on event ids: lexicographic over code
points. -/
def idLt (a b : List Char) : Prop := List.Lex charLt a b

/-! ## Concrete sample data used by the closed theorems -/

/-- A fully-populated v2-style event for species `amro` in 2025. -/
def mkAmroEvent (ts : String) (c : ℚ) : Event :=
  { timestamp_utc := some ts
    node_id := some "yard_station_1"
    bird := some { species_code := some "amro", common_name := some "American Robin"
                   confidence := some c } }

def evAmroMay : Event := mkAmroEvent "2025-05-01T10:00:00.000+00:00" 0.5
def evAmroMar : Event := mkAmroEvent "2025-03-01T10:00:00.000+00:00" 0.9
def evAmroJul : Event := mkAmroEvent "2025-07-01T10:00:00.000+00:00" 0.3

/-- A complete bird block but no `timestamp_utc`/`detected_at_utc` at all. -/
def evNoTimestamp : Event :=
  { bird := some { species_code := some "amro", common_name := some "American Robin"
                   confidence := some 0.5 } }

/-- A present four-plus-character timestamp whose four-character head is
not an integer. -/
def evBadTimestamp : Event := mkAmroEvent "20x5-05-01T10:00:00.000+00:00" 0.5

/-- Ten noise bytes; `0xFF` can never appear in UTF-8. -/
def noiseBytes : List Nat := [0xFF, 0xFE, 0xFA, 0xC8, 0x96, 0xFF, 0x81, 0x80, 0xC0, 0xC1]

/-- Valid UTF-8, invalid JSON. -/
def badJsonBytes : List Nat := utf8Encode "hello world".data

/-- A JSON array instead of an object. -/
def arrayBytes : List Nat := utf8Encode "[1,2,3]".data

/-- A well-formed wire event, shaped as birdnet_manager builds and
send_over_wifi serializes it, with `weather` present and null. -/
def sampleWireMembers : JMembers :=
  (toMembers
    [("event_id".data, .str "20251206T231752.458123Z_ab12cd34".data),
     ("node_id".data, .str "yard_station_1".data),
     ("timestamp_utc".data, .str "2025-12-06T23:17:52.458+00:00".data),
     ("local_time".data, .str "2025-12-06T16:17:52.458-07:00".data),
     ("weather".data, .null),
     ("event_type".data, .str "birdnet_detection".data),
     ("bird".data, .obj (toMembers
       [("species_code".data, .str "amro".data),
        ("common_name".data, .str "American Robin".data),
        ("confidence".data, .num 0 [8, 3]),
        ("start_time".data, .num 0 [0]),
        ("end_time".data, .num 3 [0])])),
     ("audio".data, .obj (toMembers [("file".data, .str "/tmp/chunk.wav".data)])),
     ("model".data, .obj (toMembers
       [("source".data, .str "birdnet_analyzer/birdnetlib".data),
        ("min_conf".data, .num 0 [0, 1]),
        ("lat".data, .num 37 [2, 7, 5, 3]),
        ("lon".data, .num (-107) [8, 8, 0, 1]),
        ("week".data, .num 48 [])]))])

def sampleWireEvent : JVal := .obj sampleWireMembers

def eventBytes : List Nat := utf8Encode (printJ sampleWireEvent)

/-- The spec's resilience scenario: noise, bad JSON, array root, then a
well-formed event, each tagged with a sender. -/
def resiliencePackets : List (List Nat × Nat) :=
  [(noiseBytes, 0), (badJsonBytes, 1), (arrayBytes, 2), (eventBytes, 3)]

/-- A sample creation instant and a strictly later one. -/
def tEarlier : UTCTime := ⟨2025, 12, 6, 23, 17, 52, 458000⟩
def tLater : UTCTime := ⟨2026, 1, 1, 0, 0, 0, 0⟩

end BackyardBirds

namespace BackyardBirds

/-! ## Theorems -/

/-- Helper: a detections row with a `None` NOT NULL column is rejected. -/
lemma insert_event_error_of_notNull {e : Event} {db : DBState}
    (h : detectionsNotNullOk (buildDetectionRow e) = false) :
    insert_event e db = .error .notNullViolation := by
  simp [insert_event, h]

/-- Helper: a NOT NULL-clean row is appended and the rollup updater runs. -/
lemma insert_event_ok_of_notNull {e : Event} {db : DBState}
    (h : detectionsNotNullOk (buildDetectionRow e) = true) :
    insert_event e db =
      .ok { working := db.working ++ [buildDetectionRow e]
            yearly := update_yearly_summary (buildDetectionRow e) db.yearly } := by
  simp [insert_event, h]

/-- C10.  Any event missing the bird block, or carrying a `None`
species_code/common_name/confidence, or carrying neither `timestamp_utc`
nor `detected_at_utc`, violates a NOT NULL column of `detections`, so
insert_event raises and appends nothing; in particular every event built
by the v1 build_event_from_detection carries `bird_id`/`species_name`
instead of `species_code`/`common_name` and is always rejected. -/
theorem insert_event_rejects_null_columns :
    (∀ (e : Event) (db : DBState),
      (e.bird = none ∨
        (∃ b, e.bird = some b ∧
          (b.species_code = none ∨ b.common_name = none ∨ b.confidence = none)) ∨
        (e.timestamp_utc = none ∧ e.detected_at_utc = none)) →
      insert_event e db = .error .notNullViolation) ∧
    (∀ (shell : EventShell) (mi : Option ModelBlock) (d : BirdDetection) (db : DBState),
      insert_event (build_event_from_detection shell mi d) db =
        .error .notNullViolation) := by
  constructor
  · intro e db h
    apply insert_event_error_of_notNull
    rcases h with h | ⟨b, hb, h⟩ | ⟨h1, h2⟩
    · simp [detectionsNotNullOk, buildDetectionRow, h]
    · rcases h with h | h | h <;>
        simp [detectionsNotNullOk, buildDetectionRow, hb, h]
    · simp [detectionsNotNullOk, buildDetectionRow, pyOrStr, h1, h2]
  · intro shell mi d db
    apply insert_event_error_of_notNull
    simp [detectionsNotNullOk, buildDetectionRow, build_event_from_detection]

/-- Witness for C10: the empty event dictionary is rejected. -/
theorem insert_event_rejects_null_columns_witness :
    insert_event ({} : Event) emptyDB = .error .notNullViolation :=
  insert_event_rejects_null_columns.1 {} emptyDB (Or.inl rfl)

/-- Helper: unpacking the NOT NULL check into its four columns. -/
lemma notNullOk_iff {r : DetectionRow} :
    detectionsNotNullOk r = true ↔
      r.detected_at_utc.isSome = true ∧ r.species_code.isSome = true ∧
        r.common_name.isSome = true ∧ r.confidence.isSome = true := by
  simp [detectionsNotNullOk, Bool.and_eq_true, and_assoc]

/-- C4 counterexample.  One call on an empty store passes through an
intermediate durable state — after the working.db commit, before the
yearly.db commit — holding the new detections row and no rollup row, so
the two effects are not one transactional unit: a failure during the
rollup update leaves a committed detections row behind. -/
theorem insert_event_not_atomic_counterexample :
    (insertEventCommits evAmroMay emptyDB).map
        (fun l => l.map (fun s => (s.working.length, s.yearly.rows.length))) =
      .ok [(1, 0), (1, 1)] := by
  rfl

/-- C4 amended.  insert_event runs two transactions on two databases: it
first commits the appended detections row on working.db, then separately
commits the rollup update on yearly.db; the intermediate committed state
carries the detections row with the rollup unchanged. -/
theorem insert_event_two_commits :
    ∀ (e : Event) (db : DBState),
      (detectionsNotNullOk (buildDetectionRow e) = true →
        insertEventCommits e db =
          .ok [{ working := db.working ++ [buildDetectionRow e], yearly := db.yearly },
               { working := db.working ++ [buildDetectionRow e]
                 yearly := update_yearly_summary (buildDetectionRow e) db.yearly }]) ∧
      (detectionsNotNullOk (buildDetectionRow e) = false →
        insertEventCommits e db = .error .notNullViolation) := by
  intro e db
  constructor
  · intro h; simp [insertEventCommits, h]
  · intro h; simp [insertEventCommits, h]

/-- Witness for C4: the sample event on the empty store. -/
theorem insert_event_two_commits_witness :
    detectionsNotNullOk (buildDetectionRow evAmroMay) = true ∧
      insertEventCommits evAmroMay emptyDB =
        .ok [{ working := emptyDB.working ++ [buildDetectionRow evAmroMay]
               yearly := emptyDB.yearly },
             { working := emptyDB.working ++ [buildDetectionRow evAmroMay]
               yearly := update_yearly_summary (buildDetectionRow evAmroMay)
                 emptyDB.yearly }] :=
  ⟨rfl, (insert_event_two_commits evAmroMay emptyDB).1 rfl⟩

/-- C5 counterexample.  An event with a complete bird block but no
`timestamp_utc` and no `detected_at_utc` binds NULL to the NOT NULL
column `detected_at_utc`, so insert_event raises and appends no
detections row — the claim promised a detections row for an absent
timestamp. -/
theorem partial_isolation_counterexample :
    insert_event evNoTimestamp emptyDB = .error .notNullViolation := by
  rfl

/-- C5 amended.  A present timestamp that yields no year still produces a
detections row and leaves the rollup untouched, and an empty-string
species_code skips the rollup but not the raw insert; but an absent
timestamp or a missing (`None`) species_code makes the insert itself
raise on a NOT NULL column, appending no row at all. -/
theorem insert_event_partial_isolation :
    (∀ (e : Event) (db : DBState),
      parse_year_from_timestamp (buildDetectionRow e).detected_at_utc = none →
      detectionsNotNullOk (buildDetectionRow e) = true →
      insert_event e db =
        .ok { working := db.working ++ [buildDetectionRow e], yearly := db.yearly }) ∧
    (∀ (e : Event) (db : DBState),
      (buildDetectionRow e).species_code = none →
      insert_event e db = .error .notNullViolation) ∧
    (∀ (e : Event) (db : DBState),
      (buildDetectionRow e).species_code = some "" →
      detectionsNotNullOk (buildDetectionRow e) = true →
      insert_event e db =
        .ok { working := db.working ++ [buildDetectionRow e], yearly := db.yearly }) := by
  refine ⟨?_, ?_, ?_⟩
  · intro e db hy h
    rw [insert_event_ok_of_notNull h]
    simp only [update_yearly_summary, hy]
  · intro e db hs
    apply insert_event_error_of_notNull
    simp [detectionsNotNullOk, hs]
  · intro e db hs h
    rw [insert_event_ok_of_notNull h]
    obtain ⟨-, -, hnm, -⟩ := notNullOk_iff.mp h
    obtain ⟨nm, hnm⟩ := Option.isSome_iff_exists.mp hnm
    rcases hy : parse_year_from_timestamp (buildDetectionRow e).detected_at_utc with - | y
    · simp only [update_yearly_summary, hy]
    · simp only [update_yearly_summary, hy, hs, hnm]
      simp

/-- Witness for C5: the malformed-year sample event on the empty store. -/
theorem insert_event_partial_isolation_witness :
    parse_year_from_timestamp (buildDetectionRow evBadTimestamp).detected_at_utc = none ∧
      detectionsNotNullOk (buildDetectionRow evBadTimestamp) = true ∧
      insert_event evBadTimestamp emptyDB =
        .ok { working := emptyDB.working ++ [buildDetectionRow evBadTimestamp]
              yearly := emptyDB.yearly } :=
  ⟨rfl, rfl, insert_event_partial_isolation.1 evBadTimestamp emptyDB rfl rfl⟩

/-! ### Rollup monotonicity (C6) -/

/-- Helper: what rollup wellformedness gives about the projected row. -/
lemma rollupOkB_fields {y : Int} {sp : String} {e : Event}
    (h : rollupOkB y sp e = true) :
    ∃ nm c t, sp ≠ "" ∧ nm ≠ "" ∧
      (buildDetectionRow e).species_code = some sp ∧
      (buildDetectionRow e).common_name = some nm ∧
      (buildDetectionRow e).confidence = some c ∧
      (buildDetectionRow e).detected_at_utc = some t ∧
      parse_year_from_timestamp (some t) = some y ∧
      eventConf e = c ∧ eventTs e = t ∧ eventName e = nm := by
  rcases hb : e.bird with - | b
  · simp [rollupOkB, hb] at h
  rcases hnm : b.common_name with - | nm
  · simp [rollupOkB, hb, hnm] at h
  rcases ht : rowTimestamp e with - | t
  · simp [rollupOkB, hb, hnm, ht] at h
  simp only [rollupOkB, hb, hnm, ht, Bool.and_eq_true, beq_iff_eq,
    Option.isSome_iff_exists, Bool.not_eq_true', beq_eq_false_iff_ne] at h
  obtain ⟨⟨⟨⟨hsp, hspne⟩, hnmne⟩, ⟨c, hc⟩⟩, hy⟩ := h
  refine ⟨nm, c, t, hspne, hnmne, ?_, ?_, ?_, ?_, hy, ?_, ?_, ?_⟩ <;>
    simp_all [buildDetectionRow, eventConf, eventTs, eventName, rowTimestamp]

/-- Helper: a year only parses from a nonempty string. -/
lemma parse_year_ne_empty {t : String} {y : Int}
    (h : parse_year_from_timestamp (some t) = some y) : t ≠ "" := by
  intro he
  rw [he] at h
  simp [parse_year_from_timestamp] at h

/-- Helper: finding the freshly appended rollup row. -/
lemma findYearly_append {y : Int} {sp : String} {old : List YearlyRow}
    {r : YearlyRow} (h : findYearly y sp old = none)
    (hy : r.year = y) (hs : r.species_code = sp) :
    findYearly y sp (old ++ [r]) = some r := by
  unfold findYearly at h ⊢
  rw [List.find?_append, h]
  simp [hy, hs]

/-- Helper: updating by a fresh id touches only the appended row. -/
lemma replaceById_append {old : List YearlyRow} {r r1 : YearlyRow}
    (h : ∀ q ∈ old, q.id ≠ r.id) :
    replaceById r.id r1 (old ++ [r]) = old ++ [r1] := by
  unfold replaceById
  rw [List.map_append]
  congr 1
  · conv_rhs => rw [← List.map_id old]
    exact List.map_congr_left (fun q hq => by simp [h q hq])
  · simp

/-- Helper: `existing["max_confidence"] or 0.0` is the stored value. -/
lemma pyOrQ_getD {m : ℚ} : (pyOrQ (some m) (some 0)).getD 0 = m := by
  by_cases h : m = 0 <;> simp [pyOrQ, h]

/-- Helper: one insert updating an existing fresh rollup row. -/
lemma insert_step_update {y : Int} {sp : String} {e : Event}
    {w : List DetectionRow} {old : List YearlyRow} {r : YearlyRow} {nid : Nat}
    {f g : String} {m : ℚ}
    (he : rollupOkB y sp e = true)
    (hfind : findYearly y sp old = none)
    (hid : ∀ q ∈ old, q.id ≠ r.id)
    (hyr : r.year = y) (hsp : r.species_code = sp)
    (htot : 0 < r.total_detections)
    (hfst : r.first_seen_utc = some f) (hf : f ≠ "")
    (hlst : r.last_seen_utc = some g) (hg : g ≠ "")
    (hmax : r.max_confidence = some m) :
    insert_event e ⟨w, ⟨old ++ [r], nid⟩⟩ =
      .ok ⟨w ++ [buildDetectionRow e],
        ⟨old ++ [{ r with
            total_detections := r.total_detections + 1
            first_seen_utc := some (if strLt (eventTs e) f then eventTs e else f)
            last_seen_utc := some (if strLt g (eventTs e) then eventTs e else g)
            max_confidence := some (if m < eventConf e then eventConf e else m) }],
          nid⟩⟩ := by
  obtain ⟨nm, c, t, hspne, hnmne, hsc, hcn, hcf, hts, hpy, hec, het, -⟩ :=
    rollupOkB_fields he
  have hnn : detectionsNotNullOk (buildDetectionRow e) = true :=
    notNullOk_iff.mpr (by simp [hsc, hcn, hcf, hts])
  have htne : ¬r.total_detections = 0 := by omega
  rw [insert_event_ok_of_notNull hnn]
  simp only [update_yearly_summary, hts, hpy, hsc, hcn, hcf]
  rw [if_neg (by simp [hspne, hnmne])]
  simp only [findYearly_append hfind hyr hsp]
  simp only [pyOrStr, hfst, hlst, hmax, if_neg hf, if_neg hg, if_neg htne, pyOrQ_getD]
  simp only [replaceById_append hid]
  simp [apply_ite, het, hec]

/-- Helper: the first insert creates the rollup row for `(y, sp)`. -/
lemma insert_step_create {y : Int} {sp : String} {e : Event}
    {w : List DetectionRow} {old : List YearlyRow} {nid : Nat}
    (he : rollupOkB y sp e = true)
    (hfind : findYearly y sp old = none) :
    insert_event e ⟨w, ⟨old, nid⟩⟩ =
      .ok ⟨w ++ [buildDetectionRow e],
        ⟨old ++ [{ id := nid, year := y, species_code := sp
                   common_name := eventName e, total_detections := 1
                   first_seen_utc := some (eventTs e)
                   last_seen_utc := some (eventTs e)
                   max_confidence := some (eventConf e) }], nid + 1⟩⟩ := by
  obtain ⟨nm, c, t, hspne, hnmne, hsc, hcn, hcf, hts, hpy, hec, het, hen⟩ :=
    rollupOkB_fields he
  have hnn : detectionsNotNullOk (buildDetectionRow e) = true :=
    notNullOk_iff.mpr (by simp [hsc, hcn, hcf, hts])
  rw [insert_event_ok_of_notNull hnn]
  simp only [update_yearly_summary, hts, hpy, hsc, hcn, hcf]
  rw [if_neg (by simp [hspne, hnmne])]
  simp only [hfind]
  simp [hec, het, hen]

/-- Helper: draining a wellformed sequence over an existing fresh rollup
row leaves the row at the running extrema of what it has seen. -/
lemma insertAll_rollup_aux {y : Int} {sp : String} :
    ∀ (es : List Event) (w : List DetectionRow) (old : List YearlyRow)
      (nid : Nat) (r : YearlyRow) (f g : String) (m : ℚ),
      es.all (rollupOkB y sp) = true →
      findYearly y sp old = none →
      (∀ q ∈ old, q.id ≠ r.id) →
      r.year = y → r.species_code = sp →
      0 < r.total_detections →
      r.first_seen_utc = some f → f ≠ "" →
      r.last_seen_utc = some g → g ≠ "" →
      r.max_confidence = some m →
      ∃ w2, insertAll es ⟨w, ⟨old ++ [r], nid⟩⟩ =
        .ok ⟨w2, ⟨old ++ [{ r with
            total_detections := r.total_detections + es.length
            first_seen_utc := some (runMinStr f (es.map eventTs))
            last_seen_utc := some (runMaxStr g (es.map eventTs))
            max_confidence := some (runMaxQ m (es.map eventConf)) }], nid⟩⟩ := by
  intro es
  induction es with
  | nil =>
    intro w old nid r f g m _ _ _ _ _ _ hfst _ hlst _ hmax
    refine ⟨w, ?_⟩
    simp only [insertAll, List.length_nil, List.map_nil, runMinStr, runMaxStr, runMaxQ,
      List.foldl_nil, Nat.cast_zero, add_zero]
    rw [← hfst, ← hlst, ← hmax]
  | cons e es ih =>
    intro w old nid r f g m hall hfind hid hyr hsp htot hfst hf hlst hg hmax
    rw [List.all_cons, Bool.and_eq_true] at hall
    obtain ⟨he, hall⟩ := hall
    obtain ⟨nm, c, t, -, -, -, -, -, -, hpy, hec, het, -⟩ := rollupOkB_fields he
    have hte : eventTs e ≠ "" := by rw [het]; exact parse_year_ne_empty hpy
    simp only [insertAll,
      insert_step_update he hfind hid hyr hsp htot hfst hf hlst hg hmax]
    have hfne : (if strLt (eventTs e) f then eventTs e else f) ≠ "" := by
      split <;> assumption
    have hgne : (if strLt g (eventTs e) then eventTs e else g) ≠ "" := by
      split <;> assumption
    obtain ⟨w2, hw2⟩ := ih (w ++ [buildDetectionRow e]) old nid
      { r with
        total_detections := r.total_detections + 1
        first_seen_utc := some (if strLt (eventTs e) f then eventTs e else f)
        last_seen_utc := some (if strLt g (eventTs e) then eventTs e else g)
        max_confidence := some (if m < eventConf e then eventConf e else m) }
      (if strLt (eventTs e) f then eventTs e else f)
      (if strLt g (eventTs e) then eventTs e else g)
      (if m < eventConf e then eventConf e else m)
      hall hfind (by simpa using hid) (by simp [hyr]) (by simp [hsp])
      (by simp; omega) rfl hfne rfl hgne rfl
    refine ⟨w2, ?_⟩
    rw [hw2]
    simp only [runMinStr, runMaxStr, runMaxQ, List.map_cons, List.foldl_cons,
      List.length_cons, Nat.cast_add, Nat.cast_one]
    simp [add_assoc, add_comm, add_left_comm]

/-- C6.  For every nonempty sequence of accepted events carrying a fixed
`(year, species_code)` inserted from a store with no rollup row for that
key, the rollup row ends with `total_detections` equal to the number of
inserts (each insert increments it by exactly one), `max_confidence`
equal to the running maximum of the confidences, and
`first_seen_utc`/`last_seen_utc` the lexicographic running
minimum/maximum of the timestamps. -/
theorem rollup_monotone (y : Int) (sp : String) (e0 : Event) (es : List Event)
    (db : DBState)
    (hall : (e0 :: es).all (rollupOkB y sp) = true)
    (hfind : findYearly y sp db.yearly.rows = none)
    (hid : ∀ q ∈ db.yearly.rows, q.id < db.yearly.nextId) :
    ∃ w2, insertAll (e0 :: es) db =
      .ok ⟨w2, ⟨db.yearly.rows ++
        [{ id := db.yearly.nextId, year := y, species_code := sp
           common_name := eventName e0
           total_detections := 1 + es.length
           first_seen_utc := some (runMinStr (eventTs e0) (es.map eventTs))
           last_seen_utc := some (runMaxStr (eventTs e0) (es.map eventTs))
           max_confidence := some (runMaxQ (eventConf e0) (es.map eventConf)) }],
        db.yearly.nextId + 1⟩⟩ := by
  obtain ⟨w0, rows0, nid0⟩ := db
  simp only at hfind hid ⊢
  rw [List.all_cons, Bool.and_eq_true] at hall
  obtain ⟨he0, hall⟩ := hall
  obtain ⟨nm, c, t, -, -, -, -, -, -, hpy, hec, het, -⟩ := rollupOkB_fields he0
  have hte : eventTs e0 ≠ "" := by rw [het]; exact parse_year_ne_empty hpy
  simp only [insertAll, insert_step_create he0 hfind]
  obtain ⟨w2, hw2⟩ := insertAll_rollup_aux es (w0 ++ [buildDetectionRow e0])
    rows0 (nid0 + 1)
    { id := nid0, year := y, species_code := sp, common_name := eventName e0
      total_detections := 1, first_seen_utc := some (eventTs e0)
      last_seen_utc := some (eventTs e0), max_confidence := some (eventConf e0) }
    (eventTs e0) (eventTs e0) (eventConf e0)
    hall hfind (fun q hq => by simpa using Nat.ne_of_lt (hid q hq))
    rfl rfl (by norm_num) rfl hte rfl hte rfl
  refine ⟨w2, ?_⟩
  rw [hw2]

/-- Witness for C6: three `amro` detections in 2025, confidences 0.5, 0.9
and 0.3, inserted into the empty store, ending with `total_detections = 3`
and `max_confidence = 0.9`, with `first_seen`/`last_seen` equal to the
minimum and maximum timestamp. -/
theorem rollup_monotone_witness :
    ([evAmroMay, evAmroMar, evAmroJul].all (rollupOkB 2025 "amro") = true) ∧
      runMaxQ (eventConf evAmroMay) ([evAmroMar, evAmroJul].map eventConf) = 0.9 ∧
      1 + [evAmroMar, evAmroJul].length = 3 ∧
      runMinStr (eventTs evAmroMay) ([evAmroMar, evAmroJul].map eventTs) =
        "2025-03-01T10:00:00.000+00:00" ∧
      runMaxStr (eventTs evAmroMay) ([evAmroMar, evAmroJul].map eventTs) =
        "2025-07-01T10:00:00.000+00:00" ∧
      ∃ w2, insertAll [evAmroMay, evAmroMar, evAmroJul] emptyDB =
        .ok ⟨w2, ⟨emptyDB.yearly.rows ++
          [{ id := emptyDB.yearly.nextId, year := 2025, species_code := "amro"
             common_name := eventName evAmroMay
             total_detections := 1 + [evAmroMar, evAmroJul].length
             first_seen_utc :=
               some (runMinStr (eventTs evAmroMay) ([evAmroMar, evAmroJul].map eventTs))
             last_seen_utc :=
               some (runMaxStr (eventTs evAmroMay) ([evAmroMar, evAmroJul].map eventTs))
             max_confidence :=
               some (runMaxQ (eventConf evAmroMay)
                 ([evAmroMar, evAmroJul].map eventConf)) }],
          emptyDB.yearly.nextId + 1⟩⟩ :=
  ⟨by decide,
    by norm_num [runMaxQ, eventConf, evAmroMay, evAmroMar, evAmroJul, mkAmroEvent],
    by decide, by decide, by decide,
    rollup_monotone 2025 "amro" evAmroMay [evAmroMar, evAmroJul] emptyDB
      (by decide) rfl (by simp [emptyDB, emptyYearly])⟩

/-! ### Dispatcher terminal states (C1) and pipeline liveness (C8) -/

/-- C1 counterexample.  With a failing transport, the dispatcher's call on
a concrete event terminates in the logged-send-failure state: no
`enqueue` is performed on any outbox — the repository has none — so the
event does not terminate as queued, contrary to the claim. -/
theorem dispatcher_no_outbox_counterexample :
    (handle_event (fun _ => .error ()) evAmroMay).2 =
        DispatchOutcome.sendFailureLogged ∧
      (handle_event (fun _ => .error ()) evAmroMay).1 =
        [.logReceived, .sendAttempt, .logSendException] ∧
      DispatchAction.enqueueOutbox ∉ (handle_event (fun _ => .error ()) evAmroMay).1 :=
  ⟨rfl, rfl, by decide⟩

/-- C1 amended.  For every incoming event the dispatcher attempts
`send(event)`; on success the event terminates delivered, and on failure
the exception is caught and logged (never silently dropped) — but no
outbox enqueue ever occurs and there is no queued terminal state: the
failed event's only record is the exception log, and `dispatch_detection`
still returns the event to its caller. -/
theorem dispatcher_send_failure_logged :
    ∀ (send : Event → Except Unit Unit) (e : Event),
      ((handle_event send e).2 = DispatchOutcome.delivered ↔ send e = .ok ()) ∧
      ((handle_event send e).2 = DispatchOutcome.sendFailureLogged ↔
        send e = .error ()) ∧
      DispatchAction.enqueueOutbox ∉ (handle_event send e).1 ∧
      ((handle_event send e).2 = DispatchOutcome.sendFailureLogged ↔
        DispatchAction.logSendException ∈ (handle_event send e).1) ∧
      (∀ (shell : EventShell) (mi : Option ModelBlock) (b s : String) (c : ℚ),
        (dispatch_detection shell mi send b s c).1 =
          build_event_from_detection shell mi ⟨b, s, c⟩ ∧
        DispatchAction.enqueueOutbox ∉ (dispatch_detection shell mi send b s c).2.1) := by
  intro send e
  refine ⟨?_, ?_, ?_, ?_, ?_⟩
  · rcases h : send e with ⟨⟨⟩⟩ | ⟨⟨⟩⟩ <;> simp [handle_event, h]
  · rcases h : send e with ⟨⟨⟩⟩ | ⟨⟨⟩⟩ <;> simp [handle_event, h]
  · rcases h : send e with ⟨⟨⟩⟩ | ⟨⟨⟩⟩ <;> simp [handle_event, h]
  · rcases h : send e with ⟨⟨⟩⟩ | ⟨⟨⟩⟩ <;> simp [handle_event, h]
  · intro shell mi b s c
    rcases h : send (build_event_from_detection shell mi ⟨b, s, c⟩) with ⟨⟨⟩⟩ | ⟨⟨⟩⟩ <;>
      constructor <;> simp [dispatch_detection, h]

/-- Helper: the emitted events do not depend on the callback. -/
lemma emitLoop_fst_congr (g : Nat → EventShell) (mb : ModelBlock) (ap : String)
    (cb cb' : Event → Except Unit Unit) :
    ∀ (ds : List Detection) (i : Nat),
      (emitLoop g mb ap cb ds i).1 = (emitLoop g mb ap cb' ds i).1 := by
  intro ds
  induction ds with
  | nil => intro i; rfl
  | cons d ds ih => intro i; simp [emitLoop, ih (i + 1)]

/-- Helper: every selected detection yields an emitted event and one
callback attempt. -/
lemma emitLoop_lengths (g : Nat → EventShell) (mb : ModelBlock) (ap : String)
    (cb : Event → Except Unit Unit) :
    ∀ (ds : List Detection) (i : Nat),
      (emitLoop g mb ap cb ds i).1.length = ds.length ∧
        (emitLoop g mb ap cb ds i).2.length = ds.length := by
  intro ds
  induction ds with
  | nil => intro i; exact ⟨rfl, rfl⟩
  | cons d ds ih =>
    intro i
    simp [emitLoop, (ih (i + 1)).1, (ih (i + 1)).2]

/-- C8.  The producing pipeline is never halted by the transport or the
event callback: `dispatch_detection` returns the built event dictionary
whatever `send_event` does, and `process_chunk` emits the same events for
every callback — one per selected detection, with one callback attempt
each — so a raising callback never stops the loop over detections. -/
theorem pipeline_never_halts :
    (∀ (shell : EventShell) (mi : Option ModelBlock)
        (send : Event → Except Unit Unit) (b s : String) (c : ℚ),
      (dispatch_detection shell mi send b s c).1 =
        build_event_from_detection shell mi ⟨b, s, c⟩) ∧
    (∀ (g : Nat → EventShell) (mb : ModelBlock) (ap : String)
        (dets : List Detection) (cb cb' : Event → Except Unit Unit),
      (process_chunk g mb ap dets cb).1 = (process_chunk g mb ap dets cb').1) ∧
    (∀ (g : Nat → EventShell) (mb : ModelBlock) (ap : String)
        (dets : List Detection) (cb : Event → Except Unit Unit),
      (process_chunk g mb ap dets cb).1.length =
        ((dets.filter (fun d => MIN_EMIT_CONFIDENCE ≤ d.confidence)).take
          MAX_EVENTS_PER_CHUNK).length ∧
      (process_chunk g mb ap dets cb).2.length =
        (process_chunk g mb ap dets cb).1.length) := by
  refine ⟨?_, ?_, ?_⟩
  · intro shell mi send b s c
    unfold dispatch_detection
    rcases h : send (build_event_from_detection shell mi ⟨b, s, c⟩) with ⟨⟨⟩⟩ | ⟨⟨⟩⟩ <;>
      simp [h]
  · intro g mb ap dets cb cb'
    exact emitLoop_fst_congr g mb ap cb cb' _ 0
  · intro g mb ap dets cb
    simp only [process_chunk]
    obtain ⟨h1, h2⟩ := emitLoop_lengths g mb ap cb
      ((dets.filter (fun d => MIN_EMIT_CONFIDENCE ≤ d.confidence)).take
        MAX_EVENTS_PER_CHUNK) 0
    exact ⟨h1, by rw [h1, h2]⟩

/-! ### Listener resilience (C3) -/

set_option maxRecDepth 200000

/-- C3.  The listener passes to the handler exactly the datagrams that
decode as strict UTF-8, parse as JSON and have an object root — paired
with the sender — and skips every other datagram; the loop survives every
datagram and every handler exception, processing packets one at a time
and handling the rest regardless of the outcome; in the spec's concrete
scenario (noise bytes, valid UTF-8 that is not JSON, a JSON array, then a
well-formed event) only the event reaches the handler, the handler's own
exception is caught, and the loop has processed all four packets. -/
theorem udp_listener_resilience :
    (∀ (σ : Type) (packets : List (List Nat × σ)),
      udp_event_stream packets =
        packets.filterMap (fun p =>
          match decodeDatagram p.1 with
          | .ok v => some (v, p.2)
          | .error _ => none)) ∧
    (∀ (d : List Nat),
      (∃ ms, decodeDatagram d = .ok (.obj ms)) ↔
        (∃ t ms, utf8Decode d = some t ∧ jsonLoads t = some (.obj ms))) ∧
    (∀ (σ ε : Type) (cb : JVal × σ → Except ε Unit)
        (p : List Nat × σ) (rest : List (List Nat × σ)),
      run_with_callback cb (p :: rest) =
        run_with_callback cb [p] ++ run_with_callback cb rest) ∧
    (∀ (σ ε : Type) (cb : JVal × σ → Except ε Unit) (packets : List (List Nat × σ)),
      (run_with_callback cb packets).map Prod.fst = udp_event_stream packets) ∧
    (run_with_callback (fun _ => Except.error ()) resiliencePackets =
        [((sampleWireEvent, 3), false)] ∧
      udp_event_stream resiliencePackets = [(sampleWireEvent, 3)] ∧
      decodeDatagram noiseBytes = .error .invalidUtf8 ∧
      decodeDatagram badJsonBytes = .error .invalidJson ∧
      decodeDatagram arrayBytes = .error .rootNotObject) := by
  refine ⟨?_, ?_, ?_, ?_, by rfl, by rfl, by rfl, by rfl, by rfl⟩
  · intro σ packets
    induction packets with
    | nil => rfl
    | cons p rest ih =>
      obtain ⟨d, s⟩ := p
      rcases h : decodeDatagram d with er | v <;>
        simp [udp_event_stream, List.filterMap_cons, h, ih]
  · intro d
    rcases h1 : utf8Decode d with - | t
    · have hd : decodeDatagram d = .error .invalidUtf8 := by
        unfold decodeDatagram; rw [h1]
      simp [hd, h1]
    have hd : decodeDatagram d = decodeText t := by
      unfold decodeDatagram; rw [h1]
    rcases h2 : jsonLoads t with - | v
    · have ht : decodeText t = .error .invalidJson := by
        unfold decodeText; rw [h2]
      simp [hd, ht, h1, h2]
    have ht : decodeText t = decodeRoot v := by
      unfold decodeText; rw [h2]
    rcases v with - | b | ⟨i, f⟩ | s | es | ms <;>
      simp [hd, ht, h1, h2, decodeRoot, jvalObj?]
  · intro σ ε cb p rest
    obtain ⟨d, s⟩ := p
    rcases h : decodeDatagram d with er | v
    · simp [run_with_callback, h]
    · rcases hc : cb (v, s) with u | er <;> simp [run_with_callback, h, hc]
  · intro σ ε cb packets
    induction packets with
    | nil => rfl
    | cons p rest ih =>
      obtain ⟨d, s⟩ := p
      rcases h : decodeDatagram d with er | v
      · simp [run_with_callback, udp_event_stream, h, ih]
      · rcases hc : cb (v, s) with u | er <;>
          simp [run_with_callback, udp_event_stream, h, hc, ih]

/-! ### Wire round trip (C7): basic character and digit lemmas -/

/-- Helper: characters with different code points differ. -/
lemma char_ne {a b : Char} (h : a.toNat ≠ b.toNat) : a ≠ b :=
  fun he => h (by rw [he])

/-- Helper: digit characters satisfy `isDigit`. -/
lemma digitChar_isDigit {d : Nat} (h : d < 10) : (digitChar d).isDigit = true := by
  interval_cases d <;> rfl

/-- Helper: decimal digit characters have the expected code points. -/
lemma digitChar_toNat {d : Nat} (h : d < 10) : (digitChar d).toNat = 48 + d := by
  interval_cases d <;> rfl

/-- Helper: a digit character is none of the characters outside the digit
code-point range. -/
lemma digitChar_ne {d : Nat} (h : d < 10) {c : Char}
    (hc : ¬(48 ≤ c.toNat ∧ c.toNat ≤ 57)) : digitChar d ≠ c :=
  char_ne (by rw [digitChar_toNat h]; omega)

/-- Helper: non-whitespace characters pass `skipWs` untouched. -/
lemma isJsonWs_false {c : Char} (h1 : c ≠ ' ') (h2 : c ≠ '\t') (h3 : c ≠ '\n')
    (h4 : c ≠ '\r') : isJsonWs c = false := by
  simp [isJsonWs, h1, h2, h3, h4]

lemma skipWs_cons {c : Char} (h : isJsonWs c = false) (l : List Char) :
    skipWs (c :: l) = c :: l := by
  simp [skipWs, List.dropWhile_cons, h]

/-- Helper: the bounded digit expansion never runs out of fuel. -/
lemma natDigitsAux_ne_nil : ∀ (fuel n : Nat), n < fuel → natDigitsAux fuel n ≠ [] := by
  intro fuel n h
  cases fuel with
  | zero => omega
  | succ fuel =>
    unfold natDigitsAux
    by_cases h10 : n < 10 <;> simp [h10]

/-- Helper: expanded digits are decimal digits. -/
lemma natDigitsAux_mem_lt : ∀ (fuel n d : Nat), d ∈ natDigitsAux fuel n → d < 10 := by
  intro fuel
  induction fuel with
  | zero => intro n d hd; simp [natDigitsAux] at hd
  | succ fuel ih =>
    intro n d hd
    unfold natDigitsAux at hd
    by_cases h : n < 10
    · rw [if_pos h] at hd
      simp at hd
      omega
    · rw [if_neg h] at hd
      rcases List.mem_append.mp hd with h1 | h1
      · exact ih _ _ h1
      · simp at h1
        omega

/-- Helper: the digit expansion evaluates back to its number. -/
lemma natDigitsAux_val : ∀ (fuel n : Nat), n < fuel →
    (natDigitsAux fuel n).foldl (fun a d => a * 10 + d) 0 = n := by
  intro fuel
  induction fuel with
  | zero => omega
  | succ fuel ih =>
    intro n hn
    unfold natDigitsAux
    by_cases h : n < 10
    · simp [h]
    · rw [if_neg h, List.foldl_append]
      have hd : n / 10 < n := Nat.div_lt_self (by omega) (by omega)
      rw [ih (n / 10) (by omega)]
      simp
      omega

/-- Helper: a multi-digit expansion never starts with zero. -/
lemma natDigitsAux_head_ne_zero : ∀ (fuel n : Nat), 0 < n → n < fuel →
    ∀ d, (natDigitsAux fuel n).head? = some d → d ≠ 0 := by
  intro fuel
  induction fuel with
  | zero => omega
  | succ fuel ih =>
    intro n hpos hn d hd
    unfold natDigitsAux at hd
    by_cases h : n < 10
    · rw [if_pos h] at hd
      simp at hd
      omega
    · rw [if_neg h] at hd
      have hdiv : n / 10 < n := Nat.div_lt_self (by omega) (by omega)
      have hne := natDigitsAux_ne_nil fuel (n / 10) (by omega)
      rw [List.head?_append] at hd
      rcases ho : (natDigitsAux fuel (n / 10)).head? with - | d0
      · exact absurd (List.head?_eq_none_iff.mp ho) hne
      · rw [ho] at hd
        simp at hd
        subst hd
        exact ih (n / 10) (by omega) (by omega) d0 ho

/-- Helper: printNat is a nonempty run of digit characters. -/
lemma printNat_ne_nil (n : Nat) : printNat n ≠ [] := by
  unfold printNat natDigits
  intro h
  exact natDigitsAux_ne_nil (n + 1) n (by omega) (by simpa using h)

lemma mem_printNat_isDigit {n : Nat} {c : Char} (h : c ∈ printNat n) :
    c.isDigit = true := by
  unfold printNat natDigits at h
  obtain ⟨d, hd, rfl⟩ := List.mem_map.mp h
  exact digitChar_isDigit (natDigitsAux_mem_lt _ _ _ hd)

/-- Helper: reading the printed digits of `n` gives back `n`. -/
lemma digitsToNat_printNat (n : Nat) : digitsToNat (printNat n) = n := by
  unfold digitsToNat printNat natDigits
  rw [List.foldl_map]
  have : ∀ (a : Nat), ∀ d ∈ natDigitsAux (n + 1) n,
      a * 10 + ((digitChar d).toNat - '0'.toNat) = a * 10 + d := by
    intro a d hd
    rw [digitChar_toNat (natDigitsAux_mem_lt _ _ _ hd)]
    have h0 : '0'.toNat = 48 := rfl
    omega
  rw [List.foldl_ext (fun x y => x * 10 + ((digitChar y).toNat - '0'.toNat))
    (fun a d => a * 10 + d) 0 this]
  exact natDigitsAux_val (n + 1) n (by omega)

/-- Helper: `takeDigits` splits a digit run from a non-digit continuation. -/
lemma takeDigits_append {a b : List Char} (ha : ∀ c ∈ a, c.isDigit = true)
    (hb : ∀ c, b.head? = some c → c.isDigit = false) :
    takeDigits (a ++ b) = (a, b) := by
  unfold takeDigits
  induction a with
  | nil =>
    simp only [List.nil_append]
    cases b with
    | nil => rfl
    | cons c bs => simp [List.takeWhile_cons, List.dropWhile_cons, hb c rfl]
  | cons c cs ih =>
    have hc : c.isDigit = true := ha c (by simp)
    have ih2 := ih (fun x hx => ha x (by simp [hx]))
    simp only [List.cons_append, List.takeWhile_cons, List.dropWhile_cons, hc]
    simp only [Prod.mk.injEq] at ih2 ⊢
    exact ⟨by simp [ih2.1], ih2.2⟩

/-- Helper: the string-body serialization parses back to the string. -/
lemma parseStrRest_print : ∀ (s : List Char), s.all asciiSafe = true →
    ∀ (rest : List Char),
      parseStrRest (printStrBody s ++ '"' :: rest) = some (s, rest) := by
  intro s
  induction s with
  | nil =>
    intro _ rest
    show parseStrRest (printStrBody [] ++ '"' :: rest) = some ([], rest)
    have hb : printStrBody [] = [] := rfl
    rw [hb, List.nil_append]
    unfold parseStrRest
    rw [if_pos rfl]
  | cons c cs ih =>
    intro hall rest
    rw [List.all_cons, Bool.and_eq_true] at hall
    obtain ⟨hc, hcs⟩ := hall
    have hc32 : 0x20 ≤ c.toNat ∧ c.toNat < 0x7F := by
      unfold asciiSafe at hc
      rw [Bool.and_eq_true] at hc
      exact ⟨by simpa using hc.1, by simpa using hc.2⟩
    have hbody : printStrBody (c :: cs) = escChar c ++ printStrBody cs := by
      simp [printStrBody]
    rw [hbody]
    by_cases hq : c = '"' ∨ c = '\\'
    · rcases hq with rfl | rfl
      · have hesc : escChar '"' = ['\\', '"'] := rfl
        rw [hesc]
        show (parseStrRest (printStrBody cs ++ '"' :: rest)).map
          (fun p => ('"' :: p.1, p.2)) = some ('"' :: cs, rest)
        rw [ih hcs rest]
        rfl
      · have hesc : escChar '\\' = ['\\', '\\'] := rfl
        rw [hesc]
        show (parseStrRest (printStrBody cs ++ '"' :: rest)).map
          (fun p => ('\\' :: p.1, p.2)) = some ('\\' :: cs, rest)
        rw [ih hcs rest]
        rfl
    · push_neg at hq
      have hesc : escChar c = [c] := by
        unfold escChar
        simp [hq.1, hq.2]
      rw [hesc]
      simp only [List.cons_append, List.nil_append]
      unfold parseStrRest
      rw [if_neg hq.1, if_neg hq.2, if_neg (by omega)]
      rw [ih hcs rest]
      rfl

/-- Helper: UTF-8 round trip on ASCII text. -/
lemma utf8_ascii_roundtrip : ∀ (s : List Char), (∀ c ∈ s, c.toNat < 0x80) →
    utf8Decode (utf8Encode s) = some s := by
  intro s
  induction s with
  | nil => intro _; rfl
  | cons c cs ih =>
    intro h
    have hc : c.toNat < 0x80 := h c (List.mem_cons_self c cs)
    have henc : utf8Encode (c :: cs) = c.toNat :: utf8Encode cs := by
      show ((c :: cs).map utf8EncodeChar).flatten = _
      rw [List.map_cons, List.flatten_cons]
      unfold utf8EncodeChar
      rw [if_pos hc]
      rfl
    unfold utf8Decode
    rw [henc, List.length_cons]
    unfold utf8DecodeAux
    rw [if_pos hc,
      show utf8DecodeAux ((utf8Encode cs).length + 1) (utf8Encode cs) = some cs from
        ih (fun x hx => h x (List.mem_cons_of_mem c hx))]
    show some (Char.ofNat c.toNat :: cs) = some (c :: cs)
    rw [Char.ofNat_toNat]

/-- Helper: printed digit runs are ASCII. -/
lemma mem_printNat_ascii {n : Nat} {c : Char} (h : c ∈ printNat n) :
    c.toNat < 0x80 := by
  unfold printNat natDigits at h
  obtain ⟨d, hd, rfl⟩ := List.mem_map.mp h
  rw [digitChar_toNat (natDigitsAux_mem_lt _ _ _ hd)]
  have := natDigitsAux_mem_lt (n + 1) n d hd
  omega

/-- Helper: printed integers are ASCII. -/
lemma mem_printInt_ascii {i : Int} {c : Char} (h : c ∈ printInt i) :
    c.toNat < 0x80 := by
  cases i with
  | ofNat n => exact mem_printNat_ascii h
  | negSucc n =>
    rcases List.mem_cons.mp h with rfl | h2
    · decide
    · exact mem_printNat_ascii h2

/-- Helper: printed strings over the safe alphabet are ASCII. -/
lemma mem_printStr_ascii {s : List Char} (hs : s.all asciiSafe = true) {c : Char}
    (h : c ∈ printStr s) : c.toNat < 0x80 := by
  unfold printStr at h
  rcases List.mem_cons.mp h with rfl | h2
  · decide
  rcases List.mem_append.mp h2 with h3 | h3
  · unfold printStrBody at h3
    obtain ⟨l1, hl1, hcl⟩ := List.mem_flatten.mp h3
    obtain ⟨x, hx, rfl⟩ := List.mem_map.mp hl1
    have hxs : asciiSafe x = true := by
      rw [List.all_eq_true] at hs
      exact hs x hx
    have hx2 : x.toNat < 0x7F := by
      unfold asciiSafe at hxs
      rw [Bool.and_eq_true] at hxs
      simpa using hxs.2
    unfold escChar at hcl
    by_cases hq : (x = '"' || x = '\\') = true
    · rw [if_pos hq] at hcl
      rcases List.mem_cons.mp hcl with rfl | h4
      · decide
      · simp at h4
        subst h4
        omega
    · rw [if_neg hq] at hcl
      simp at hcl
      subst hcl
      omega
  · simp at h3
    subst h3
    decide

/-- Helper: the serialized form of a number value. -/
lemma printJ_num (i : Int) (f : List Nat) :
    printJ (.num i f) = printInt i ++ fracPart f := by
  cases f <;> rfl

mutual

/-- Helper: canonical values print as ASCII text. -/
theorem printJ_ascii : ∀ (v : JVal), canonB v = true →
    ∀ c ∈ printJ v, c.toNat < 0x80
  | .null, _, c, hc => by
    simp [printJ] at hc
    rcases hc with rfl | rfl | rfl | rfl <;> decide
  | .bool true, _, c, hc => by
    simp [printJ] at hc
    rcases hc with rfl | rfl | rfl | rfl <;> decide
  | .bool false, _, c, hc => by
    simp [printJ] at hc
    rcases hc with rfl | rfl | rfl | rfl | rfl <;> decide
  | .num i f, hcan, c, hc => by
    rw [printJ_num] at hc
    rcases List.mem_append.mp hc with h1 | h1
    · exact mem_printInt_ascii h1
    · rcases f with - | ⟨f0, fs⟩
      · simp [fracPart] at h1
      rw [show fracPart (f0 :: fs) = '.' :: (f0 :: fs).map digitChar from rfl] at h1
      rcases List.mem_cons.mp h1 with rfl | h2
      · decide
      obtain ⟨d, hd, rfl⟩ := List.mem_map.mp h2
      have hd10 : d < 10 := by
        unfold canonB at hcan
        rw [List.all_eq_true] at hcan
        simpa using hcan d hd
      rw [digitChar_toNat hd10]
      omega
  | .str s, hcan, c, hc => mem_printStr_ascii (by simpa [canonB] using hcan) hc
  | .arr es, hcan, c, hc => by
    rw [show printJ (.arr es) = '[' :: printElems es ++ [']'] from rfl] at hc
    rcases List.mem_cons.mp hc with rfl | h2
    · decide
    rcases List.mem_append.mp h2 with h3 | h3
    · exact printElems_ascii es (by simpa [canonB] using hcan) c h3
    · simp at h3
      subst h3
      decide
  | .obj ms, hcan, c, hc => by
    rw [show printJ (.obj ms) = '\x7b' :: printMembers ms ++ ['\x7d'] from rfl] at hc
    rcases List.mem_cons.mp hc with rfl | h2
    · decide
    rcases List.mem_append.mp h2 with h3 | h3
    · exact printMembers_ascii ms (by simpa [canonB] using hcan) c h3
    · simp at h3
      subst h3
      decide

theorem printElems_ascii : ∀ (es : JElems), canonElems es = true →
    ∀ c ∈ printElems es, c.toNat < 0x80
  | .nil, _, c, hc => by simp [printElems] at hc
  | .cons v .nil, hcan, c, hc => by
    rw [show printElems (.cons v .nil) = printJ v from rfl] at hc
    have h1 : canonB v = true := by
      unfold canonElems at hcan
      rw [Bool.and_eq_true] at hcan
      exact hcan.1
    exact printJ_ascii v h1 c hc
  | .cons v (.cons v2 rest), hcan, c, hc => by
    rw [show printElems (.cons v (.cons v2 rest)) =
      printJ v ++ ',' :: printElems (.cons v2 rest) from rfl] at hc
    have h1 : canonB v = true ∧ canonElems (.cons v2 rest) = true := by
      unfold canonElems at hcan
      rw [Bool.and_eq_true] at hcan
      exact hcan
    rcases List.mem_append.mp hc with h2 | h2
    · exact printJ_ascii v h1.1 c h2
    rcases List.mem_cons.mp h2 with rfl | h3
    · decide
    · exact printElems_ascii (.cons v2 rest) h1.2 c h3

theorem printMembers_ascii : ∀ (ms : JMembers), canonMembers ms = true →
    ∀ c ∈ printMembers ms, c.toNat < 0x80
  | .nil, _, c, hc => by simp [printMembers] at hc
  | .cons k v .nil, hcan, c, hc => by
    rw [show printMembers (.cons k v .nil) = printStr k ++ ':' :: printJ v
      from rfl] at hc
    have h1 : k.all asciiSafe = true ∧ canonB v = true := by
      unfold canonMembers at hcan
      rw [Bool.and_eq_true, Bool.and_eq_true] at hcan
      exact ⟨hcan.1.1, hcan.1.2⟩
    rcases List.mem_append.mp hc with h2 | h2
    · exact mem_printStr_ascii h1.1 h2
    rcases List.mem_cons.mp h2 with rfl | h3
    · decide
    · exact printJ_ascii v h1.2 c h3
  | .cons k v (.cons k2 v2 rest), hcan, c, hc => by
    rw [show printMembers (.cons k v (.cons k2 v2 rest)) =
      (printStr k ++ ':' :: printJ v) ++ ',' :: printMembers (.cons k2 v2 rest)
      from rfl] at hc
    have h1 : k.all asciiSafe = true ∧ canonB v = true ∧
        canonMembers (.cons k2 v2 rest) = true := by
      unfold canonMembers at hcan
      rw [Bool.and_eq_true, Bool.and_eq_true] at hcan
      exact ⟨hcan.1.1, hcan.1.2, hcan.2⟩
    rcases List.mem_append.mp hc with h2 | h2
    · rcases List.mem_append.mp h2 with h3 | h3
      · exact mem_printStr_ascii h1.1 h3
      rcases List.mem_cons.mp h3 with rfl | h4
      · decide
      · exact printJ_ascii v h1.2.1 c h4
    rcases List.mem_cons.mp h2 with rfl | h5
    · decide
    · exact printMembers_ascii (.cons k2 v2 rest) h1.2.2 c h5

end

mutual

/-- Helper: the printed form is at least as long as the fuel the parser
needs to read it back. -/
theorem jneed_le_printJ : ∀ (v : JVal), jneed v ≤ (printJ v).length
  | .null => by simp [jneed, printJ]
  | .bool b => by cases b <;> simp [jneed, printJ]
  | .num i f => by
    have h1 : 1 ≤ (printInt i).length := by
      cases i with
      | ofNat n =>
        have := printNat_ne_nil n
        cases h : printNat n with
        | nil => exact absurd h this
        | cons a l => simp [printInt, h]
      | negSucc n => simp [printInt]
    rw [printJ_num, show jneed (.num i f) = 1 from rfl, List.length_append]
    omega
  | .str s => by
    rw [show printJ (.str s) = printStr s from rfl,
      show jneed (.str s) = 1 from rfl]
    unfold printStr
    simp
  | .arr es => by
    have h1 := jneedElems_le_printElems es
    rw [show printJ (.arr es) = '[' :: printElems es ++ [']'] from rfl,
      show jneed (.arr es) = 1 + jneedElems es from rfl]
    simp only [List.length_cons, List.length_append, List.length_singleton]
    omega
  | .obj ms => by
    have h1 := jneedMembers_le_printMembers ms
    rw [show printJ (.obj ms) = '\x7b' :: printMembers ms ++ ['\x7d'] from rfl,
      show jneed (.obj ms) = 1 + jneedMembers ms from rfl]
    simp only [List.length_cons, List.length_append, List.length_singleton]
    omega

theorem jneedElems_le_printElems : ∀ (es : JElems),
    jneedElems es ≤ (printElems es).length + 1
  | .nil => by simp [jneedElems, printElems]
  | .cons v .nil => by
    have h1 := jneed_le_printJ v
    rw [show printElems (.cons v .nil) = printJ v from rfl,
      show jneedElems (.cons v .nil) = 1 + jneed v from rfl]
    omega
  | .cons v (.cons v2 rest) => by
    have h1 := jneed_le_printJ v
    have h2 := jneedElems_le_printElems (.cons v2 rest)
    rw [show printElems (.cons v (.cons v2 rest)) =
      printJ v ++ ',' :: printElems (.cons v2 rest) from rfl,
      show jneedElems (.cons v (.cons v2 rest)) =
        1 + jneed v + jneedElems (.cons v2 rest) from rfl]
    rw [List.length_append, List.length_cons]
    omega

theorem jneedMembers_le_printMembers : ∀ (ms : JMembers),
    jneedMembers ms ≤ (printMembers ms).length + 1
  | .nil => by simp [jneedMembers, printMembers]
  | .cons k v .nil => by
    have h1 := jneed_le_printJ v
    rw [show printMembers (.cons k v .nil) = printStr k ++ ':' :: printJ v from rfl,
      show jneedMembers (.cons k v .nil) = 1 + jneed v from rfl]
    rw [List.length_append, List.length_cons]
    omega
  | .cons k v (.cons k2 v2 rest) => by
    have h1 := jneed_le_printJ v
    have h2 := jneedMembers_le_printMembers (.cons k2 v2 rest)
    rw [show printMembers (.cons k v (.cons k2 v2 rest)) =
      printStr k ++ ':' :: printJ v ++ ',' :: printMembers (.cons k2 v2 rest)
      from rfl,
      show jneedMembers (.cons k v (.cons k2 v2 rest)) =
        1 + jneed v + jneedMembers (.cons k2 v2 rest) from rfl]
    rw [List.length_append, List.length_append, List.length_cons, List.length_cons]
    omega

end

/-- Helper: a printed value starts with a non-whitespace character that
is neither a closing bracket nor a closing brace. -/
lemma printJ_head_spec (v : JVal) : ∃ c l, printJ v = c :: l ∧
    isJsonWs c = false ∧ c ≠ ']' ∧ c ≠ '\x7d' := by
  cases v with
  | null => exact ⟨'n', _, rfl, by decide⟩
  | bool b =>
    cases b
    · exact ⟨'f', _, rfl, by decide⟩
    · exact ⟨'t', _, rfl, by decide⟩
  | num i f =>
    cases i with
    | ofNat n =>
      rcases hnd : natDigits n with - | ⟨d0, ds0⟩
      · exact absurd (by simpa [natDigits] using hnd)
          (natDigitsAux_ne_nil (n + 1) n (by omega))
      have hd0 : d0 < 10 := natDigitsAux_mem_lt (n + 1) n d0
        (by rw [show natDigitsAux (n + 1) n = natDigits n from rfl, hnd]; simp)
      refine ⟨digitChar d0, List.map digitChar ds0 ++ fracPart f, ?_, ?_, ?_, ?_⟩
      · rw [printJ_num, show printInt (.ofNat n) = printNat n from rfl]
        unfold printNat
        rw [hnd]
        rfl
      · exact isJsonWs_false (digitChar_ne hd0 (by decide))
          (digitChar_ne hd0 (by decide)) (digitChar_ne hd0 (by decide))
          (digitChar_ne hd0 (by decide))
      · exact digitChar_ne hd0 (by decide)
      · exact digitChar_ne hd0 (by decide)
    | negSucc n =>
      exact ⟨'-', _, rfl, by decide⟩
  | str s => exact ⟨'"', _, rfl, by decide⟩
  | arr es => exact ⟨'[', _, rfl, by decide⟩
  | obj ms => exact ⟨'\x7b', _, rfl, by decide⟩

/-- Helper: mapping digit characters back to digit values. -/
lemma map_digitChar_val : ∀ (f : List Nat), (∀ d ∈ f, d < 10) →
    (f.map digitChar).map (fun c => c.toNat - '0'.toNat) = f := by
  intro f
  induction f with
  | nil => intro _; rfl
  | cons d ds ih =>
    intro hf
    have hd := hf d (List.mem_cons_self d ds)
    simp only [List.map_cons]
    rw [ih (fun x hx => hf x (List.mem_cons_of_mem d hx))]
    congr 1
    rw [digitChar_toNat hd, show Char.toNat '0' = 48 from rfl]
    omega

/-- Helper: the empty continuation is a valid number delimiter. -/
lemma delimOk_nil : delimOk [] := by
  intro c hc
  simp at hc

/-- Helper: a continuation headed by a non-digit non-dot character is a
valid number delimiter. -/
lemma delimOk_cons {c : Char} (h1 : c.isDigit = false) (h2 : c ≠ '.')
    (l : List Char) : delimOk (c :: l) := by
  intro c2 hc2
  rw [List.head?_cons] at hc2
  cases Option.some.inj hc2
  exact ⟨h1, h2⟩

lemma delimOk_head_ne_dot {l : List Char} (h : delimOk l) :
    l.head? ≠ some '.' := by
  intro hc
  rcases l with - | ⟨c, cs⟩
  · simp at hc
  · rw [List.head?_cons] at hc
    exact (h c rfl).2 (Option.some.inj hc)

/-- Helper: printed naturals never trip the leading-zero guard. -/
lemma printNat_no_leading_zero (n : Nat) {d : Char} {ds : List Char}
    (h : printNat n = d :: ds) : (d = '0' && !ds.isEmpty) = false := by
  unfold printNat at h
  rcases hnd : natDigits n with - | ⟨d0, ds0⟩
  · rw [hnd] at h
    simp at h
  rw [hnd, List.map_cons] at h
  injection h with h1 h2
  subst h1
  subst h2
  rcases ds0 with - | ⟨d1, ds1⟩
  · simp
  · have hn10 : ¬ n < 10 := by
      intro hn
      rw [show natDigits n = [n] from by simp [natDigits, natDigitsAux, hn]] at hnd
      simp at hnd
    have hd0ne : d0 ≠ 0 :=
      natDigitsAux_head_ne_zero (n + 1) n (by omega) (by omega) d0
        (by rw [show natDigitsAux (n + 1) n = natDigits n from rfl, hnd]; rfl)
    have hd10 : d0 < 10 := natDigitsAux_mem_lt (n + 1) n d0
      (by rw [show natDigitsAux (n + 1) n = natDigits n from rfl, hnd]; simp)
    have hne0 : digitChar d0 ≠ '0' := by
      intro he
      apply hd0ne
      have ht := congrArg Char.toNat he
      rw [digitChar_toNat hd10, show Char.toNat '0' = 48 from rfl] at ht
      omega
    simp [hne0]

/-- Helper: the integer digits are exactly the leading digit run of the
printed number form. -/
lemma takeDigits_printNat_frac (n : Nat) (f : List Nat)
    (rest : List Char) (hrest : delimOk rest) :
    takeDigits (printNat n ++ (fracPart f ++ rest)) =
      (printNat n, fracPart f ++ rest) := by
  apply takeDigits_append (fun c hc => mem_printNat_isDigit hc)
  intro c hc
  rcases f with - | ⟨f0, fs⟩
  · exact (hrest c (by simpa [fracPart] using hc)).1
  · rw [show fracPart (f0 :: fs) ++ rest =
      '.' :: ((f0 :: fs).map digitChar ++ rest) from rfl, List.head?_cons] at hc
    cases Option.some.inj hc
    rfl

/-- Helper: the fraction digits are exactly the digit run after the dot. -/
lemma takeDigits_fracDigits (f : List Nat) (hf : ∀ d ∈ f, d < 10)
    (rest : List Char) (hrest : delimOk rest) :
    takeDigits (f.map digitChar ++ rest) = (f.map digitChar, rest) := by
  apply takeDigits_append
  · intro c hc
    obtain ⟨d, hd, rfl⟩ := List.mem_map.mp hc
    exact digitChar_isDigit (hf d hd)
  · exact fun c hc => (hrest c hc).1

/-- Helper: parseNum reads a printed nonnegative number back. -/
lemma parseNum_print_pos (n : Nat) (f : List Nat) (hf : ∀ d ∈ f, d < 10)
    (rest : List Char) (hrest : delimOk rest) :
    parseNum (printNat n ++ (fracPart f ++ rest)) =
      some (.num (Int.ofNat n) f, rest) := by
  rcases hnd : natDigits n with - | ⟨d0, ds0⟩
  · exact absurd (by simpa [natDigits] using hnd)
      (natDigitsAux_ne_nil (n + 1) n (by omega))
  have hd0 : d0 < 10 := natDigitsAux_mem_lt (n + 1) n d0
    (by rw [show natDigitsAux (n + 1) n = natDigits n from rfl, hnd]; simp)
  have hpn : printNat n = digitChar d0 :: List.map digitChar ds0 := by
    unfold printNat
    rw [hnd]
    rfl
  have htd := takeDigits_printNat_frac n f rest hrest
  have hlz := printNat_no_leading_zero n hpn
  rw [hpn, List.cons_append] at htd
  rw [hpn, List.cons_append]
  simp only [parseNum]
  have hsign : (if digitChar d0 = '-' then
      (true, List.map digitChar ds0 ++ (fracPart f ++ rest))
    else (false, digitChar d0 :: (List.map digitChar ds0 ++ (fracPart f ++ rest)))) =
      (false, digitChar d0 :: (List.map digitChar ds0 ++ (fracPart f ++ rest))) :=
    if_neg (digitChar_ne hd0 (by decide))
  simp only [hsign, htd]
  rw [if_neg (show ¬((digitChar d0 = '0' && !(List.map digitChar ds0).isEmpty) = true)
    from by rw [hlz]; decide)]
  rw [show digitChar d0 :: List.map digitChar ds0 = printNat n from hpn.symm,
    digitsToNat_printNat]
  rcases f with - | ⟨f0, fs⟩
  · rw [if_neg (show ¬((fracPart [] ++ rest).head? = some '.') from by
      simpa [fracPart] using delimOk_head_ne_dot hrest)]
    rfl
  · rw [show fracPart (f0 :: fs) ++ rest =
      '.' :: ((f0 :: fs).map digitChar ++ rest) from rfl]
    rw [if_pos (by rw [List.head?_cons])]
    rw [List.tail_cons]
    simp only [List.map_cons]
    have htd2 := takeDigits_fracDigits (f0 :: fs) hf rest hrest
    rw [List.map_cons] at htd2
    simp only [htd2]
    have hmv := map_digitChar_val fs (fun d hd => hf d (List.mem_cons_of_mem f0 hd))
    rw [hmv]
    rw [show (digitChar f0).toNat - '0'.toNat = f0 from by
      rw [digitChar_toNat (hf f0 (List.mem_cons_self f0 fs)),
        show Char.toNat '0' = 48 from rfl]
      omega]
    rfl

/-- Helper: parseNum reads a printed negative number back. -/
lemma parseNum_print_neg (n : Nat) (f : List Nat) (hf : ∀ d ∈ f, d < 10)
    (rest : List Char) (hrest : delimOk rest) :
    parseNum (('-' :: printNat (n + 1)) ++ (fracPart f ++ rest)) =
      some (.num (Int.negSucc n) f, rest) := by
  rcases hnd : natDigits (n + 1) with - | ⟨d0, ds0⟩
  · exact absurd (by simpa [natDigits] using hnd)
      (natDigitsAux_ne_nil (n + 2) (n + 1) (by omega))
  have hd0 : d0 < 10 := natDigitsAux_mem_lt (n + 2) (n + 1) d0
    (by rw [show natDigitsAux (n + 2) (n + 1) = natDigits (n + 1) from rfl, hnd]; simp)
  have hpn : printNat (n + 1) = digitChar d0 :: List.map digitChar ds0 := by
    unfold printNat
    rw [hnd]
    rfl
  have htd := takeDigits_printNat_frac (n + 1) f rest hrest
  have hlz := printNat_no_leading_zero (n + 1) hpn
  rw [hpn, List.cons_append] at htd
  rw [List.cons_append, hpn, List.cons_append]
  simp only [parseNum, if_true, htd]
  rw [if_neg (show ¬((digitChar d0 = '0' && !(List.map digitChar ds0).isEmpty) = true)
    from by rw [hlz]; decide)]
  rw [show digitChar d0 :: List.map digitChar ds0 = printNat (n + 1) from hpn.symm,
    digitsToNat_printNat]
  rcases f with - | ⟨f0, fs⟩
  · rw [if_neg (show ¬((fracPart [] ++ rest).head? = some '.') from by
      simpa [fracPart] using delimOk_head_ne_dot hrest)]
    rfl
  · rw [show fracPart (f0 :: fs) ++ rest =
      '.' :: ((f0 :: fs).map digitChar ++ rest) from rfl]
    rw [if_pos (by rw [List.head?_cons])]
    rw [List.tail_cons]
    simp only [List.map_cons]
    have htd2 := takeDigits_fracDigits (f0 :: fs) hf rest hrest
    rw [List.map_cons] at htd2
    simp only [htd2]
    have hmv := map_digitChar_val fs (fun d hd => hf d (List.mem_cons_of_mem f0 hd))
    rw [hmv]
    rw [show (digitChar f0).toNat - '0'.toNat = f0 from by
      rw [digitChar_toNat (hf f0 (List.mem_cons_self f0 fs)),
        show Char.toNat '0' = 48 from rfl]
      omega]
    rfl

/-- Helper: parseVal dispatches a printed number to parseNum and reads it
back. -/
lemma parseVal_num (fuel : Nat) (i : Int) (f : List Nat)
    (hf : ∀ d ∈ f, d < 10) (rest : List Char) (hrest : delimOk rest) :
    parseVal (fuel + 1) (printJ (.num i f) ++ rest) = some (.num i f, rest) := by
  rw [printJ_num, List.append_assoc]
  cases i with
  | ofNat n =>
    rw [show printInt (Int.ofNat n) = printNat n from rfl]
    rcases hnd : natDigits n with - | ⟨d0, ds0⟩
    · exact absurd (by simpa [natDigits] using hnd)
        (natDigitsAux_ne_nil (n + 1) n (by omega))
    have hd0 : d0 < 10 := natDigitsAux_mem_lt (n + 1) n d0
      (by rw [show natDigitsAux (n + 1) n = natDigits n from rfl, hnd]; simp)
    have hpn : printNat n = digitChar d0 :: List.map digitChar ds0 := by
      unfold printNat
      rw [hnd]
      rfl
    rw [hpn, List.cons_append]
    have hws : isJsonWs (digitChar d0) = false :=
      isJsonWs_false (digitChar_ne hd0 (by decide)) (digitChar_ne hd0 (by decide))
        (digitChar_ne hd0 (by decide)) (digitChar_ne hd0 (by decide))
    simp only [parseVal, skipWs_cons hws]
    rw [if_neg (digitChar_ne hd0 (by decide)), if_neg (digitChar_ne hd0 (by decide)),
      if_neg (digitChar_ne hd0 (by decide)), if_neg (digitChar_ne hd0 (by decide)),
      if_neg (digitChar_ne hd0 (by decide)), if_neg (digitChar_ne hd0 (by decide))]
    rw [show digitChar d0 :: (List.map digitChar ds0 ++ (fracPart f ++ rest)) =
      printNat n ++ (fracPart f ++ rest) from by rw [hpn, List.cons_append]]
    exact parseNum_print_pos n f hf rest hrest
  | negSucc n =>
    rw [show printInt (Int.negSucc n) = '-' :: printNat (n + 1) from rfl,
      List.cons_append]
    simp only [parseVal, skipWs_cons (show isJsonWs '-' = false from by decide)]
    rw [if_neg (show ¬('-' = 'n') from by decide),
      if_neg (show ¬('-' = 't') from by decide),
      if_neg (show ¬('-' = 'f') from by decide),
      if_neg (show ¬('-' = '"') from by decide),
      if_neg (show ¬('-' = '[') from by decide),
      if_neg (show ¬('-' = '\x7b') from by decide)]
    exact parseNum_print_neg n f hf rest hrest

/-- Helper: every value needs at least one unit of fuel. -/
lemma jneed_pos : ∀ v : JVal, 1 ≤ jneed v := by
  intro v
  cases v with
  | null => exact Nat.le_refl 1
  | bool b => exact Nat.le_refl 1
  | num i f => exact Nat.le_refl 1
  | str s => exact Nat.le_refl 1
  | arr es =>
    show 1 ≤ 1 + jneedElems es
    omega
  | obj ms =>
    show 1 ≤ 1 + jneedMembers ms
    omega

lemma jneedElems_pos : ∀ es : JElems, 1 ≤ jneedElems es := by
  intro es
  cases es with
  | nil => exact Nat.le_refl 1
  | cons v rest =>
    cases rest with
    | nil =>
      show 1 ≤ 1 + jneed v
      omega
    | cons v2 r2 =>
      show 1 ≤ 1 + jneed v + jneedElems (.cons v2 r2)
      omega

lemma jneedMembers_pos : ∀ ms : JMembers, 1 ≤ jneedMembers ms := by
  intro ms
  cases ms with
  | nil => exact Nat.le_refl 1
  | cons k v rest =>
    cases rest with
    | nil =>
      show 1 ≤ 1 + jneed v
      omega
    | cons k2 v2 r2 =>
      show 1 ≤ 1 + jneed v + jneedMembers (.cons k2 v2 r2)
      omega

/-- Helper: a nonempty element sequence prints as its first value followed
by a tail. -/
lemma printElems_cons_ex (v : JVal) (r : JElems) :
    ∃ t, printElems (.cons v r) = printJ v ++ t := by
  cases r with
  | nil => exact ⟨[], (List.append_nil _).symm⟩
  | cons v2 r2 => exact ⟨',' :: printElems (.cons v2 r2), rfl⟩

/-- Helper: a nonempty member sequence prints starting with a quote. -/
lemma printMembers_head (k : List Char) (v : JVal) (r : JMembers) :
    ∃ t, printMembers (.cons k v r) = '"' :: t := by
  cases r with
  | nil =>
    refine ⟨printStrBody k ++ '"' :: ':' :: printJ v, ?_⟩
    rw [show printMembers (.cons k v .nil) = printStr k ++ ':' :: printJ v from rfl]
    simp [printStr]
  | cons k2 v2 r2 =>
    refine ⟨printStrBody k ++ '"' :: ':' ::
      (printJ v ++ ',' :: printMembers (.cons k2 v2 r2)), ?_⟩
    rw [show printMembers (.cons k v (.cons k2 v2 r2)) =
      (printStr k ++ ':' :: printJ v) ++ ',' :: printMembers (.cons k2 v2 r2)
      from rfl]
    simp [printStr]

/-- Helper: with enough fuel, the parser reads every canonical printed
value (and nonempty element/member sequence) back, leaving the
continuation untouched. -/
theorem parse_print_roundtrip : ∀ (fuel : Nat),
    (∀ (v : JVal) (rest : List Char), canonB v = true → jneed v ≤ fuel →
      delimOk rest → parseVal fuel (printJ v ++ rest) = some (v, rest)) ∧
    (∀ (es : JElems) (rest : List Char), canonElems es = true → es ≠ .nil →
      jneedElems es ≤ fuel → delimOk rest →
      parseElems fuel (printElems es ++ ']' :: rest) = some (es, rest)) ∧
    (∀ (ms : JMembers) (rest : List Char), canonMembers ms = true → ms ≠ .nil →
      jneedMembers ms ≤ fuel → delimOk rest →
      parseMembers fuel (printMembers ms ++ '\x7d' :: rest) = some (ms, rest)) := by
  intro fuel
  induction fuel with
  | zero =>
    refine ⟨?_, ?_, ?_⟩
    · intro v rest _ hle _
      exact absurd hle (by have := jneed_pos v; omega)
    · intro es rest _ _ hle _
      exact absurd hle (by have := jneedElems_pos es; omega)
    · intro ms rest _ _ hle _
      exact absurd hle (by have := jneedMembers_pos ms; omega)
  | succ fuel ih =>
    obtain ⟨ihV, ihE, ihM⟩ := ih
    refine ⟨?_, ?_, ?_⟩
    · intro v rest hcan hle hrest
      cases v with
      | null => rfl
      | bool b => cases b <;> rfl
      | num i f =>
        refine parseVal_num fuel i f ?_ rest hrest
        intro d hd
        have h := List.all_eq_true.mp (show f.all (fun d => d < 10) = true from hcan) d hd
        simpa using h
      | str s =>
        have hs : s.all asciiSafe = true := hcan
        rw [show printJ (.str s) ++ rest = '"' :: (printStrBody s ++ '"' :: rest) from by
          rw [show printJ (.str s) = '"' :: printStrBody s ++ ['"'] from rfl]
          simp]
        simp only [parseVal, skipWs_cons (show isJsonWs '"' = false from by decide)]
        rw [if_neg (show ¬('"' = 'n') from by decide),
          if_neg (show ¬('"' = 't') from by decide),
          if_neg (show ¬('"' = 'f') from by decide), if_pos trivial]
        rw [parseStrRest_print s hs rest]
        rfl
      | arr es =>
        cases es with
        | nil => rfl
        | cons v2 es2 =>
          have hcanE : canonElems (.cons v2 es2) = true := hcan
          have hleE : jneedElems (.cons v2 es2) ≤ fuel := by
            have h := hle
            rw [show jneed (.arr (.cons v2 es2)) =
              1 + jneedElems (.cons v2 es2) from rfl] at h
            omega
          obtain ⟨c2, l2, hp2, hws2, hbr2, -⟩ := printJ_head_spec v2
          obtain ⟨t2, hpe⟩ := printElems_cons_ex v2 es2
          rw [show printJ (.arr (.cons v2 es2)) ++ rest =
              '[' :: (printElems (.cons v2 es2) ++ ']' :: rest) from by
            rw [show printJ (.arr (.cons v2 es2)) =
              '[' :: printElems (.cons v2 es2) ++ [']'] from rfl]
            simp]
          simp only [parseVal, skipWs_cons (show isJsonWs '[' = false from by decide)]
          rw [if_neg (show ¬('[' = 'n') from by decide),
            if_neg (show ¬('[' = 't') from by decide),
            if_neg (show ¬('[' = 'f') from by decide),
            if_neg (show ¬('[' = '"') from by decide), if_pos trivial]
          have hns : skipWs (printElems (.cons v2 es2) ++ ']' :: rest) =
              c2 :: (l2 ++ (t2 ++ ']' :: rest)) := by
            rw [hpe, hp2, List.append_assoc, List.cons_append]
            exact skipWs_cons hws2 _
          rw [hns]
          rw [if_neg (show ¬((c2 :: (l2 ++ (t2 ++ ']' :: rest))).head? = some ']')
            from by
              rw [List.head?_cons]
              intro hcon
              exact hbr2 (Option.some.inj hcon))]
          have hE := ihE (.cons v2 es2) rest hcanE
            (by intro h; exact JElems.noConfusion h) hleE hrest
          simp only [hE]
      | obj ms =>
        cases ms with
        | nil => rfl
        | cons k2 v2 ms2 =>
          have hcanM : canonMembers (.cons k2 v2 ms2) = true := hcan
          have hleM : jneedMembers (.cons k2 v2 ms2) ≤ fuel := by
            have h := hle
            rw [show jneed (.obj (.cons k2 v2 ms2)) =
              1 + jneedMembers (.cons k2 v2 ms2) from rfl] at h
            omega
          obtain ⟨t2, hpm⟩ := printMembers_head k2 v2 ms2
          rw [show printJ (.obj (.cons k2 v2 ms2)) ++ rest =
              '\x7b' :: (printMembers (.cons k2 v2 ms2) ++ '\x7d' :: rest) from by
            rw [show printJ (.obj (.cons k2 v2 ms2)) =
              '\x7b' :: printMembers (.cons k2 v2 ms2) ++ ['\x7d'] from rfl]
            simp]
          simp only [parseVal, skipWs_cons (show isJsonWs '\x7b' = false from by decide)]
          rw [if_neg (show ¬('\x7b' = 'n') from by decide),
            if_neg (show ¬('\x7b' = 't') from by decide),
            if_neg (show ¬('\x7b' = 'f') from by decide),
            if_neg (show ¬('\x7b' = '"') from by decide),
            if_neg (show ¬('\x7b' = '[') from by decide), if_pos trivial]
          have hns : skipWs (printMembers (.cons k2 v2 ms2) ++ '\x7d' :: rest) =
              '"' :: (t2 ++ '\x7d' :: rest) := by
            rw [hpm, List.cons_append]
            exact skipWs_cons (by decide) _
          rw [hns]
          rw [if_neg (show ¬(('"' :: (t2 ++ '\x7d' :: rest)).head? = some '\x7d')
            from by
              rw [List.head?_cons]
              intro hcon
              exact absurd (Option.some.inj hcon) (by decide))]
          have hM := ihM (.cons k2 v2 ms2) rest hcanM
            (by intro h; exact JMembers.noConfusion h) hleM hrest
          simp only [hM]
    · intro es rest hcan hne hle hrest
      cases es with
      | nil => exact absurd rfl hne
      | cons v tail =>
        have hcv : canonB v = true ∧ canonElems tail = true := by
          have h : (canonB v && canonElems tail) = true := hcan
          rw [Bool.and_eq_true] at h
          exact h
        cases tail with
        | nil =>
          have hlev : jneed v ≤ fuel := by
            have h := hle
            rw [show jneedElems (.cons v .nil) = 1 + jneed v from rfl] at h
            omega
          have hV := ihV v (']' :: rest) hcv.1 hlev
            (delimOk_cons (by decide) (by decide) rest)
          rw [show printElems (.cons v .nil) ++ ']' :: rest =
            printJ v ++ ']' :: rest from rfl]
          simp only [parseElems, hV,
            skipWs_cons (show isJsonWs ']' = false from by decide)]
        | cons v2 t2 =>
          have hlev : jneed v ≤ fuel ∧ jneedElems (.cons v2 t2) ≤ fuel := by
            have h := hle
            rw [show jneedElems (.cons v (.cons v2 t2)) =
              1 + jneed v + jneedElems (.cons v2 t2) from rfl] at h
            have h1 := jneed_pos v
            have h2 := jneedElems_pos (.cons v2 t2)
            omega
          have hV := ihV v (',' :: (printElems (.cons v2 t2) ++ ']' :: rest)) hcv.1
            hlev.1 (delimOk_cons (by decide) (by decide) _)
          have hE := ihE (.cons v2 t2) rest hcv.2
            (by intro h; exact JElems.noConfusion h) hlev.2 hrest
          rw [show printElems (.cons v (.cons v2 t2)) ++ ']' :: rest =
              printJ v ++ (',' :: (printElems (.cons v2 t2) ++ ']' :: rest)) from by
            rw [show printElems (.cons v (.cons v2 t2)) =
              printJ v ++ ',' :: printElems (.cons v2 t2) from rfl]
            simp]
          simp only [parseElems, hV,
            skipWs_cons (show isJsonWs ',' = false from by decide), hE, Option.map]
    · intro ms rest hcan hne hle hrest
      cases ms with
      | nil => exact absurd rfl hne
      | cons k v tail =>
        have hckv : k.all asciiSafe = true ∧ canonB v = true ∧
            canonMembers tail = true := by
          have h : (k.all asciiSafe && canonB v && canonMembers tail) = true := hcan
          rw [Bool.and_eq_true, Bool.and_eq_true] at h
          exact ⟨h.1.1, h.1.2, h.2⟩
        cases tail with
        | nil =>
          have hlev : jneed v ≤ fuel := by
            have h := hle
            rw [show jneedMembers (.cons k v .nil) = 1 + jneed v from rfl] at h
            omega
          have hV := ihV v ('\x7d' :: rest) hckv.2.1 hlev
            (delimOk_cons (by decide) (by decide) rest)
          have hS := parseStrRest_print k hckv.1 (':' :: (printJ v ++ '\x7d' :: rest))
          rw [show printMembers (.cons k v .nil) ++ '\x7d' :: rest =
              '"' :: (printStrBody k ++ '"' :: (':' :: (printJ v ++ '\x7d' :: rest)))
              from by
            rw [show printMembers (.cons k v .nil) =
              printStr k ++ ':' :: printJ v from rfl]
            simp [printStr]]
          simp only [parseMembers,
            skipWs_cons (show isJsonWs '"' = false from by decide), hS,
            skipWs_cons (show isJsonWs ':' = false from by decide), hV,
            skipWs_cons (show isJsonWs '\x7d' = false from by decide)]
        | cons k3 v3 t3 =>
          have hlev : jneed v ≤ fuel ∧ jneedMembers (.cons k3 v3 t3) ≤ fuel := by
            have h := hle
            rw [show jneedMembers (.cons k v (.cons k3 v3 t3)) =
              1 + jneed v + jneedMembers (.cons k3 v3 t3) from rfl] at h
            have h1 := jneed_pos v
            have h2 := jneedMembers_pos (.cons k3 v3 t3)
            omega
          have hV := ihV v
            (',' :: (printMembers (.cons k3 v3 t3) ++ '\x7d' :: rest)) hckv.2.1
            hlev.1 (delimOk_cons (by decide) (by decide) _)
          have hM := ihM (.cons k3 v3 t3) rest hckv.2.2
            (by intro h; exact JMembers.noConfusion h) hlev.2 hrest
          have hS := parseStrRest_print k hckv.1
            (':' :: (printJ v ++ ',' :: (printMembers (.cons k3 v3 t3) ++ '\x7d' :: rest)))
          rw [show printMembers (.cons k v (.cons k3 v3 t3)) ++ '\x7d' :: rest =
              '"' :: (printStrBody k ++ '"' :: (':' :: (printJ v ++ ',' ::
                (printMembers (.cons k3 v3 t3) ++ '\x7d' :: rest)))) from by
            rw [show printMembers (.cons k v (.cons k3 v3 t3)) =
              (printStr k ++ ':' :: printJ v) ++ ',' :: printMembers (.cons k3 v3 t3)
              from rfl]
            simp [printStr]]
          simp only [parseMembers,
            skipWs_cons (show isJsonWs '"' = false from by decide), hS,
            skipWs_cons (show isJsonWs ':' = false from by decide), hV,
            skipWs_cons (show isJsonWs ',' = false from by decide), hM, Option.map]

/-- Helper: json.loads inverts the wire serialization on canonical
values. -/
lemma jsonLoads_print (v : JVal) (hcan : canonB v = true) :
    jsonLoads (printJ v) = some v := by
  have h1 := (parse_print_roundtrip ((printJ v).length + 1)).1 v [] hcan
    (by have := jneed_le_printJ v; omega) delimOk_nil
  rw [List.append_nil] at h1
  unfold jsonLoads
  simp only [h1]
  rfl

/-! ### Event-id monotonicity (C9) -/

/-- Helper: a strict lexicographic comparison of equal-length runs
survives appending arbitrary tails. -/
lemma lex_append_of_lt {r : Char → Char → Prop} :
    ∀ {l1 l2 : List Char}, List.Lex r l1 l2 → l1.length = l2.length →
      ∀ (t1 t2 : List Char), List.Lex r (l1 ++ t1) (l2 ++ t2) := by
  intro l1 l2 h
  induction h with
  | nil => intro hlen; simp at hlen
  | rel hr => intro _ t1 t2; exact .rel hr
  | cons h ih => intro hlen t1 t2; exact .cons (ih (by simpa using hlen) t1 t2)

/-- Helper: a shared run can be stripped from the front. -/
lemma lex_append_left {r : Char → Char → Prop} (s : List Char) {t1 t2 : List Char}
    (h : List.Lex r t1 t2) : List.Lex r (s ++ t1) (s ++ t2) := by
  induction s with
  | nil => exact h
  | cons c cs ih => exact .cons ih

/-- Helper: zero-padded fields have their fixed width. -/
lemma pad_length : ∀ (w n : Nat), (pad w n).length = w := by
  intro w
  induction w with
  | zero => intro n; rfl
  | succ w ih => intro n; simp [pad, ih]

/-- Helper: zero-padded rendering is strictly monotone below the width's
capacity. -/
lemma pad_lt : ∀ (w m n : Nat), m < n → n < 10 ^ w →
    List.Lex charLt (pad w m) (pad w n) := by
  intro w
  induction w with
  | zero => intro m n hmn hn; omega
  | succ w ih =>
    intro m n hmn hn
    have hle : m / 10 ≤ n / 10 := Nat.div_le_div_right (le_of_lt hmn)
    rcases lt_or_eq_of_le hle with hdiv | hdiv
    · have hn10 : n / 10 < 10 ^ w := by
        apply Nat.div_lt_of_lt_mul
        rw [pow_succ] at hn
        omega
      exact lex_append_of_lt (ih _ _ hdiv hn10)
        (by rw [pad_length, pad_length]) _ _
    · have hmod : m % 10 < n % 10 := by omega
      show List.Lex charLt (pad w (m / 10) ++ [digitChar (m % 10)])
        (pad w (n / 10) ++ [digitChar (n % 10)])
      rw [hdiv]
      apply lex_append_left
      exact .rel (by
        unfold charLt
        rw [digitChar_toNat (Nat.mod_lt m (by omega)),
          digitChar_toNat (Nat.mod_lt n (by omega))]
        omega)

/-- Helper: the strftime timestamp part is strictly monotone in the
instant, for valid four-digit-year instants. -/
lemma tsPart_lt {t1 t2 : UTCTime} (h1 : t1.Valid) (h2 : t2.Valid)
    (hlt : t1.Before t2) : List.Lex charLt (tsPart t1) (tsPart t2) := by
  obtain ⟨hy1a, hy1b, hmo1a, hmo1b, hd1a, hd1b, hh1, hmi1, hs1, hu1⟩ := h1
  obtain ⟨hy2a, hy2b, hmo2a, hmo2b, hd2a, hd2b, hh2, hmi2, hs2, hu2⟩ := h2
  unfold tsPart
  rcases hlt with hy | ⟨hy, hmo | ⟨hmo, hd | ⟨hd, hh | ⟨hh, hmi | ⟨hmi, hs | ⟨hs, hu⟩⟩⟩⟩⟩⟩
  · exact lex_append_of_lt (pad_lt 4 _ _ hy (by omega))
      (by rw [pad_length, pad_length]) _ _
  · rw [hy]
    apply lex_append_left
    exact lex_append_of_lt (pad_lt 2 _ _ hmo (by omega))
      (by rw [pad_length, pad_length]) _ _
  · rw [hy, hmo]
    apply lex_append_left
    apply lex_append_left
    exact lex_append_of_lt (pad_lt 2 _ _ hd (by omega))
      (by rw [pad_length, pad_length]) _ _
  · rw [hy, hmo, hd]
    apply lex_append_left
    apply lex_append_left
    apply lex_append_left
    apply List.Lex.cons
    exact lex_append_of_lt (pad_lt 2 _ _ hh (by omega))
      (by rw [pad_length, pad_length]) _ _
  · rw [hy, hmo, hd, hh]
    apply lex_append_left
    apply lex_append_left
    apply lex_append_left
    apply List.Lex.cons
    apply lex_append_left
    exact lex_append_of_lt (pad_lt 2 _ _ hmi (by omega))
      (by rw [pad_length, pad_length]) _ _
  · rw [hy, hmo, hd, hh, hmi]
    apply lex_append_left
    apply lex_append_left
    apply lex_append_left
    apply List.Lex.cons
    apply lex_append_left
    apply lex_append_left
    exact lex_append_of_lt (pad_lt 2 _ _ hs (by omega))
      (by rw [pad_length, pad_length]) _ _
  · rw [hy, hmo, hd, hh, hmi, hs]
    apply lex_append_left
    apply lex_append_left
    apply lex_append_left
    apply List.Lex.cons
    apply lex_append_left
    apply lex_append_left
    apply lex_append_left
    apply List.Lex.cons
    exact lex_append_of_lt (pad_lt 6 _ _ hu (by omega))
      (by rw [pad_length, pad_length]) _ _

/-- C9.  The event id is the `%Y%m%dT%H%M%S.%fZ` rendering of the UTC
creation instant, an underscore, and the random suffix; it is assigned
exactly once, at creation, into the frozen `EventShell` (a Lean structure
field, never reassigned); and for any two creation instants `t1 < t2`
within four-digit years the first id sorts lexicographically strictly
before the second, whatever the random suffixes. -/
theorem event_id_monotone :
    (∀ (t1 t2 : UTCTime) (r1 r2 : List Char),
      t1.Valid → t2.Valid → t1.Before t2 →
      idLt (make_event_id t1 r1) (make_event_id t2 r2)) ∧
    (∀ (nodeIdArg : Option String) (t : UTCTime) (localIso : String)
        (rand : List Char),
      (new_event_shell nodeIdArg t localIso rand).event_id =
        String.mk (make_event_id t rand) ∧
      make_event_id t rand = tsPart t ++ '_' :: rand) := by
  constructor
  · intro t1 t2 r1 r2 h1 h2 hlt
    unfold idLt make_event_id
    exact lex_append_of_lt (tsPart_lt h1 h2 hlt)
      (by simp [tsPart, pad_length]) _ _
  · intro nodeIdArg t localIso rand
    exact ⟨rfl, rfl⟩

/-- Witness for C9: two concrete instants, the second a strictly later
moment, with arbitrary distinct random suffixes. -/
theorem event_id_monotone_witness :
    tEarlier.Valid ∧ tLater.Valid ∧ tEarlier.Before tLater ∧
      idLt (make_event_id tEarlier "deadbeef".data)
        (make_event_id tLater "00000000".data) :=
  ⟨by decide, by decide, by decide,
    event_id_monotone.1 tEarlier tLater "deadbeef".data "00000000".data
      (by decide) (by decide) (by decide)⟩

/-! ### Wire round trip (C7) -/

/-- C7.  For every event record as serialized on the node — a canonical
JSON object (decimal fractions, printable-ASCII strings) whose `weather`
member is JSON null — UTF-8 encoding the compact JSON text and decoding
the datagram at the listener (strict UTF-8 decode, `json.loads`, root
object check) yields exactly the original record, and its `weather`
member is still present and still null, neither omitted nor coerced to a
default. -/
theorem wire_roundtrip (ms : JMembers) (hcan : canonB (.obj ms) = true)
    (hw : lookupMember "weather".data ms = some .null) :
    decodeDatagram (utf8Encode (printJ (.obj ms))) = .ok (.obj ms) ∧
      lookupMember "weather".data ms = some JVal.null := by
  refine ⟨?_, hw⟩
  have hutf : utf8Decode (utf8Encode (printJ (.obj ms))) = some (printJ (.obj ms)) :=
    utf8_ascii_roundtrip _ (printJ_ascii _ hcan)
  have hload : jsonLoads (printJ (.obj ms)) = some (.obj ms) := jsonLoads_print _ hcan
  unfold decodeDatagram
  simp only [hutf]
  unfold decodeText
  simp only [hload]
  rfl

/-- Witness for C7: the concrete sample wire event (weather explicitly
null) round trips. -/
theorem wire_roundtrip_witness :
    canonB (.obj sampleWireMembers) = true ∧
      lookupMember "weather".data sampleWireMembers = some JVal.null ∧
      (decodeDatagram (utf8Encode (printJ (.obj sampleWireMembers))) =
          .ok (.obj sampleWireMembers) ∧
        lookupMember "weather".data sampleWireMembers = some JVal.null) :=
  ⟨by rfl, by rfl, wire_roundtrip sampleWireMembers (by rfl) (by rfl)⟩

end BackyardBirds
